import Mathlib

/-!
# Verification of the terminal-ai request pipeline

Shallow embedding of the core components of the `terminal-ai` repository:
the response cache (`internal/ai/cache.go`), the retry/backoff controller,
the rate limiter, the streaming processor and the orchestrating client
(`internal/ai/client.go`, `internal/ai/stream.go`).

Conventions:
* Go `time.Time`/`time.Duration` values are modelled as `Int` nanoseconds;
  the zero `time.Time` is modelled as `none : Option Int` where Go calls
  `IsZero`.
* Go `int`/`int64` are modelled as `Int` (no modelled operation comes close
  to overflow).
* Go float64 arithmetic in the backoff computation is modelled over `ℚ`;
  all values reached by the modelled configurations are exactly
  representable, so no rounding is lost.
* The Go `map[string]*list.Element` plus `container/list` LRU list is
  modelled as a single association list in recency order (head = most
  recently used); the map view is `List.find?` over that list.
-/

namespace TerminalAI

/-- Token usage counts (`Usage` in `client.go`). -/
structure Usage where
  promptTokens : Int := 0
  completionTokens : Int := 0
  totalTokens : Int := 0
deriving Repr, DecidableEq

/-- A completed AI response (`Response` in `client.go`). -/
structure Response where
  content : String := ""
  model : String := ""
  usage : Usage := {}
  finishReason : String := ""
  created : Int := 0
  id : String := ""
  object : String := ""
deriving Repr, DecidableEq

/-- A cached response with metadata (`CacheEntry` in `cache.go`).
`response` is an `Option` because the Go field is a pointer that can be nil. -/
structure CacheEntry where
  response : Option Response := none
  promptHash : String := ""
  tokenUsage : Usage := {}
  createdAt : Int := 0
  lastAccessedAt : Int := 0
  expiresAt : Int := 0
  accessCount : Int := 0
  sizeBytes : Int := 0
deriving Repr, DecidableEq

/-- A node of the LRU list (`lruNode` in `cache.go`). -/
structure LruNode where
  key : String
  entry : CacheEntry
  sizeBytes : Int
deriving Repr, DecidableEq

/-- The in-memory cache state (`InMemoryCache` in `cache.go`).
The stats counters are inlined (`stats *CacheStats` in Go); `disk` models the
contents of the `cache.gob` snapshot file (`none` = no file on disk), and
`persistConfigured` models `persistPath != ""`. -/
structure CacheState where
  lruList : List LruNode := []
  maxSizeBytes : Int := 0
  currentSize : Int := 0
  ttl : Int := 0
  statsHits : Int := 0
  statsMisses : Int := 0
  statsEvictions : Int := 0
  statsEntries : Nat := 0
  statsSizeBytes : Int := 0
  statsLastCleanup : Int := 0
  persistConfigured : Bool := false
  disk : Option (List (String × CacheEntry)) := none
deriving Repr, DecidableEq

/-- `calculateEntrySize` from `cache.go`: content length plus fixed per-field
overhead constants.  Note that in `Set` this runs *before* `entry.PromptHash`
is assigned, so it sees the caller's `promptHash` field. -/
def calculateEntrySize (entry : CacheEntry) : Int :=
  let size : Int :=
    match entry.response with
    | some r =>
        (r.content.utf8ByteSize : Int) + (r.model.utf8ByteSize : Int) +
          (r.id.utf8ByteSize : Int) + 100
    | none => 0
  size + (entry.promptHash.utf8ByteSize : Int) + 200

/-- Remove the node holding `key` from the LRU list, returning the new list
and the removed node's recorded `sizeBytes` (0 if the key is absent).
Models `lruList.Remove(elem)` + `delete(entries, key)` for the element the
map points at. -/
def removeKey (l : List LruNode) (key : String) : List LruNode × Int :=
  match l with
  | [] => ([], 0)
  | n :: rest =>
      if n.key == key then (rest, n.sizeBytes)
      else
        let r := removeKey rest key
        (n :: r.1, r.2)

/-- `removeLocked` from `cache.go`: remove a key if present; the `Bool`
reports whether anything was removed. -/
def removeLocked (c : CacheState) (key : String) : CacheState × Bool :=
  match c.lruList.find? (fun n => n.key == key) with
  | none => (c, false)
  | some _ =>
      let r := removeKey c.lruList key
      ({ c with lruList := r.1, currentSize := c.currentSize - r.2 }, true)

/-- `evictLRULocked` from `cache.go`: drop the tail (least recently used)
node of the list, subtract its recorded size, bump the eviction counter. -/
def evictLRULocked (c : CacheState) : CacheState :=
  match c.lruList.getLast? with
  | none => c
  | some n =>
      { c with
        lruList := c.lruList.dropLast,
        currentSize := c.currentSize - n.sizeBytes,
        statsEvictions := c.statsEvictions + 1 }

/-- The eviction loop of `Set`:
`for currentSize + entrySize > maxSizeBytes && lruList.Len() > 0 { evict }`.
The fuel argument is instantiated with the list length, which bounds the
number of loop iterations since each eviction removes one node. -/
def evictFuel : Nat → CacheState → Int → CacheState
  | 0, c, _ => c
  | fuel + 1, c, need =>
      if c.currentSize + need > c.maxSizeBytes ∧ c.lruList ≠ [] then
        evictFuel fuel (evictLRULocked c) need
      else c

/-- `Get` from `cache.go`: miss bumps the miss counter; an expired entry is
lazily removed and counted as a miss; a hit updates access metadata, moves
the node to the front of the LRU list and bumps the hit counter.
`now > expiresAt` models `time.Now().After(entry.ExpiresAt)`. -/
def cacheGet (c : CacheState) (now : Int) (key : String) :
    Option CacheEntry × CacheState :=
  match c.lruList.find? (fun n => n.key == key) with
  | none => (none, { c with statsMisses := c.statsMisses + 1 })
  | some n =>
      if now > n.entry.expiresAt then
        let c' := (removeLocked c key).1
        (none, { c' with statsMisses := c'.statsMisses + 1 })
      else
        let e' := { n.entry with lastAccessedAt := now,
                                 accessCount := n.entry.accessCount + 1 }
        let l' := ⟨n.key, e', n.sizeBytes⟩ :: (removeKey c.lruList key).1
        (some e', { c with lruList := l', statsHits := c.statsHits + 1 })

/-- Errors returned by `Set` in `cache.go`. -/
inductive CacheSetError where
  /-- "cannot cache nil entry" -/
  | nilEntry
  /-- "entry size %d exceeds max cache size %d" -/
  | tooLarge (entrySize maxSize : Int)
deriving Repr, DecidableEq

/-- `Set` from `cache.go`.  The entry's size is computed first (and written
into `sizeBytes`); an entry larger than the whole cache is rejected with a
capacity error before any state change; otherwise any old entry under the
key is removed, LRU entries are evicted until the new entry fits (or the
cache is empty), the TTL (default if 0) and `promptHash := key` are applied
and the node is pushed to the front. -/
def cacheSet (c : CacheState) (now : Int) (key : String)
    (entry? : Option CacheEntry) (ttl : Int) :
    Option CacheSetError × CacheState :=
  match entry? with
  | none => (some .nilEntry, c)
  | some entry0 =>
      let entrySize := calculateEntrySize entry0
      let entry1 := { entry0 with sizeBytes := entrySize }
      if entrySize > c.maxSizeBytes then
        (some (.tooLarge entrySize c.maxSizeBytes), c)
      else
        let c1 := (removeLocked c key).1
        let c2 := evictFuel c1.lruList.length c1 entrySize
        let ttl' := if ttl = 0 then c.ttl else ttl
        let entry2 := { entry1 with expiresAt := now + ttl', promptHash := key }
        let l' := (⟨key, entry2, entrySize⟩ : LruNode) :: c2.lruList
        let cur' := c2.currentSize + entrySize
        (none,
          { c2 with
            lruList := l', currentSize := cur',
            statsEntries := l'.length, statsSizeBytes := cur' })

/-- `Delete` from `cache.go`: `false` models the "key not found" error. -/
def cacheDelete (c : CacheState) (key : String) : Bool × CacheState :=
  let r := removeLocked c key
  (r.2, r.1)

/-- `Clear` from `cache.go`: drops all entries, zeroes `currentSize` and the
entries/size/eviction counters and deletes the snapshot file.  The hit and
miss counters are left untouched by the source. -/
def cacheClear (c : CacheState) : CacheState :=
  { c with
    lruList := [], currentSize := 0,
    statsEntries := 0, statsSizeBytes := 0, statsEvictions := 0,
    disk := if c.persistConfigured then none else c.disk }

/-- The statistics snapshot returned by `Stats()` (`CacheStats` in Go).
`hitRate` is computed over `ℚ` instead of float64. -/
structure CacheStatsView where
  hits : Int
  misses : Int
  evictions : Int
  entries : Nat
  sizeBytes : Int
  maxSizeBytes : Int
  hitRate : ℚ
  lastCleanup : Int
deriving Repr, DecidableEq

/-- `Stats` from `cache.go`: entries and size are read from the live
structures; hit rate is `hits/(hits+misses)` when any request was counted. -/
def cacheStats (c : CacheState) : CacheStatsView :=
  { hits := c.statsHits, misses := c.statsMisses,
    evictions := c.statsEvictions,
    entries := c.lruList.length, sizeBytes := c.currentSize,
    maxSizeBytes := c.maxSizeBytes,
    hitRate :=
      if c.statsHits + c.statsMisses > 0 then
        (c.statsHits : ℚ) / ((c.statsHits : ℚ) + (c.statsMisses : ℚ))
      else 0,
    lastCleanup := c.statsLastCleanup }

/-- `Save` from `cache.go`: atomically replace the snapshot with the current
entry map (modelled as the key/entry pairs of the live list). -/
def cacheSave (c : CacheState) : CacheState :=
  if c.persistConfigured then
    { c with disk := some (c.lruList.map fun n => (n.key, n.entry)) }
  else c

/-- `Load` from `cache.go`: entries already expired at load time
(`now < expiresAt` fails) are silently skipped, the rest are pushed to the
back of the LRU list and their recorded `sizeBytes` added to `currentSize`.
No capacity check is performed. -/
def cacheLoad (c : CacheState) (now : Int) : CacheState :=
  if c.persistConfigured then
    match c.disk with
    | none => c
    | some data =>
        let live := data.filter fun p => now < p.2.expiresAt
        let nodes := live.map fun p => (⟨p.1, p.2, p.2.sizeBytes⟩ : LruNode)
        let l' := c.lruList ++ nodes
        let cur' := c.currentSize + (nodes.map (·.sizeBytes)).sum
        { c with
          lruList := l', currentSize := cur',
          statsEntries := l'.length, statsSizeBytes := cur' }
  else c

/-- `cleanup` from `cache.go`: remove every expired entry, record the sweep
time, and write a snapshot if persistence is configured and entries remain. -/
def cacheCleanup (c : CacheState) (now : Int) : CacheState :=
  let expired := c.lruList.filter fun n => now > n.entry.expiresAt
  let kept := c.lruList.filter fun n => ¬ now > n.entry.expiresAt
  let c1 :=
    { c with
      lruList := kept,
      currentSize := c.currentSize - (expired.map (·.sizeBytes)).sum,
      statsLastCleanup := now }
  if c.persistConfigured ∧ kept ≠ [] then cacheSave c1 else c1

/-- Invariant: `currentSize` equals the sum of the live entries' recorded
sizes (spec, section 3). -/
def sizeInv (c : CacheState) : Prop :=
  c.currentSize = (c.lruList.map (·.sizeBytes)).sum

/-- Invariant: the cache never exceeds its configured capacity. -/
def capInv (c : CacheState) : Prop := c.currentSize ≤ c.maxSizeBytes

/-- All recorded node sizes are nonnegative (true of every entry the cache
itself inserts, since `calculateEntrySize ≥ 200`). -/
def sizesNonneg (c : CacheState) : Prop := ∀ n ∈ c.lruList, 0 ≤ n.sizeBytes

instance (c : CacheState) : Decidable (sizeInv c) :=
  inferInstanceAs (Decidable (c.currentSize = (c.lruList.map (·.sizeBytes)).sum))

instance (c : CacheState) : Decidable (capInv c) :=
  inferInstanceAs (Decidable (c.currentSize ≤ c.maxSizeBytes))

instance (c : CacheState) : Decidable (sizesNonneg c) :=
  inferInstanceAs (Decidable (∀ n ∈ c.lruList, 0 ≤ n.sizeBytes))

/-! ## Helper lemmas for the cache invariants -/

lemma removeKey_sum (l : List LruNode) (key : String) :
    (((removeKey l key).1.map (·.sizeBytes)).sum : Int) =
      (l.map (·.sizeBytes)).sum - (removeKey l key).2 := by
  induction l with
  | nil => simp [removeKey]
  | cons n rest ih =>
      by_cases h : n.key == key
      · simp [removeKey, h]
      · simp [removeKey, h]; omega

lemma removeKey_sublist (l : List LruNode) (key : String) :
    (removeKey l key).1.Sublist l := by
  induction l with
  | nil => simp [removeKey]
  | cons n rest ih =>
      by_cases h : n.key == key
      · simp only [removeKey, h, if_true]
        exact List.sublist_cons_self n rest
      · simp only [removeKey, h, if_false, Bool.false_eq_true]
        exact ih.cons₂ n

lemma removeKey_val_of_find? (l : List LruNode) (key : String) (n : LruNode)
    (h : l.find? (fun m => m.key == key) = some n) :
    (removeKey l key).2 = n.sizeBytes := by
  induction l with
  | nil => simp at h
  | cons a rest ih =>
      by_cases ha : a.key == key
      · simp [List.find?, ha] at h
        simp [removeKey, ha, ← h]
      · simp [List.find?, ha] at h
        simp [removeKey, ha, ih h]

lemma removeKey_nonneg (l : List LruNode) (key : String)
    (h : ∀ n ∈ l, 0 ≤ n.sizeBytes) : 0 ≤ (removeKey l key).2 := by
  induction l with
  | nil => simp [removeKey]
  | cons a rest ih =>
      by_cases ha : a.key == key
      · simpa [removeKey, ha] using h a (by simp)
      · simpa [removeKey, ha] using ih (fun n hn => h n (by simp [hn]))

lemma sum_dropLast_of_getLast? :
    ∀ (l : List LruNode) (n : LruNode), l.getLast? = some n →
      ((l.dropLast.map (·.sizeBytes)).sum : Int) =
        (l.map (·.sizeBytes)).sum - n.sizeBytes
  | [], n, h => by simp at h
  | [a], n, h => by
      simp only [List.getLast?_singleton, Option.some.injEq] at h
      subst h; simp
  | a :: b :: t, n, h => by
      have ih := sum_dropLast_of_getLast? (b :: t) n
        (by simpa [List.getLast?_cons_cons] using h)
      simp only [List.dropLast_cons₂, List.map_cons, List.sum_cons, ih]
      omega

lemma sizeInv_removeLocked (c : CacheState) (key : String)
    (h : sizeInv c) : sizeInv (removeLocked c key).1 := by
  unfold removeLocked
  cases hf : c.lruList.find? (fun m => m.key == key) with
  | none => simpa [sizeInv] using h
  | some n =>
      simp only [sizeInv] at h ⊢
      rw [removeKey_sum]
      omega

lemma currentSize_removeLocked_le (c : CacheState) (key : String)
    (hnn : sizesNonneg c) :
    (removeLocked c key).1.currentSize ≤ c.currentSize := by
  unfold removeLocked
  cases hf : c.lruList.find? (fun m => m.key == key) with
  | none => simp
  | some n =>
      have := removeKey_nonneg c.lruList key hnn
      simp only
      omega

lemma sizesNonneg_removeLocked (c : CacheState) (key : String)
    (hnn : sizesNonneg c) : sizesNonneg (removeLocked c key).1 := by
  unfold removeLocked
  cases hf : c.lruList.find? (fun m => m.key == key) with
  | none => simpa [sizesNonneg] using hnn
  | some n =>
      intro m hm
      exact hnn m ((removeKey_sublist c.lruList key).subset hm)

@[simp] lemma removeLocked_max (c : CacheState) (key : String) :
    (removeLocked c key).1.maxSizeBytes = c.maxSizeBytes := by
  unfold removeLocked
  cases c.lruList.find? (fun m => m.key == key) <;> simp

lemma sizeInv_evictLRULocked (c : CacheState) (h : sizeInv c) :
    sizeInv (evictLRULocked c) := by
  unfold evictLRULocked
  cases hl : c.lruList.getLast? with
  | none => simpa [sizeInv] using h
  | some n =>
      simp only [sizeInv] at h ⊢
      rw [sum_dropLast_of_getLast? c.lruList n hl]
      omega

lemma sizesNonneg_evictLRULocked (c : CacheState) (hnn : sizesNonneg c) :
    sizesNonneg (evictLRULocked c) := by
  unfold evictLRULocked
  cases hl : c.lruList.getLast? with
  | none => simpa [sizesNonneg] using hnn
  | some n =>
      intro m hm
      exact hnn m (List.dropLast_sublist c.lruList |>.subset hm)

@[simp] lemma evictLRULocked_max (c : CacheState) :
    (evictLRULocked c).maxSizeBytes = c.maxSizeBytes := by
  unfold evictLRULocked
  cases c.lruList.getLast? <;> simp

lemma evictLRULocked_length (c : CacheState) (h : c.lruList ≠ []) :
    (evictLRULocked c).lruList.length = c.lruList.length - 1 := by
  unfold evictLRULocked
  cases hl : c.lruList.getLast? with
  | none => simp [List.getLast?_eq_none_iff] at hl; exact absurd hl h
  | some n => simp [List.length_dropLast]

lemma sizeInv_evictFuel (fuel : Nat) (c : CacheState) (need : Int)
    (h : sizeInv c) : sizeInv (evictFuel fuel c need) := by
  induction fuel generalizing c with
  | zero => simpa [evictFuel] using h
  | succ fuel ih =>
      unfold evictFuel
      split
      · exact ih _ (sizeInv_evictLRULocked c h)
      · exact h

lemma sizesNonneg_evictFuel (fuel : Nat) (c : CacheState) (need : Int)
    (hnn : sizesNonneg c) : sizesNonneg (evictFuel fuel c need) := by
  induction fuel generalizing c with
  | zero => simpa [evictFuel] using hnn
  | succ fuel ih =>
      unfold evictFuel
      split
      · exact ih _ (sizesNonneg_evictLRULocked c hnn)
      · exact hnn

@[simp] lemma evictFuel_max (fuel : Nat) (c : CacheState) (need : Int) :
    (evictFuel fuel c need).maxSizeBytes = c.maxSizeBytes := by
  induction fuel generalizing c with
  | zero => simp [evictFuel]
  | succ fuel ih =>
      unfold evictFuel
      split
      · rw [ih, evictLRULocked_max]
      · rfl

/-- After running the eviction loop with enough fuel, either the new entry
fits or the cache is empty (the loop guard is false). -/
lemma evictFuel_post (fuel : Nat) (c : CacheState) (need : Int)
    (hfuel : c.lruList.length ≤ fuel) :
    (evictFuel fuel c need).currentSize + need ≤
        (evictFuel fuel c need).maxSizeBytes ∨
      (evictFuel fuel c need).lruList = [] := by
  induction fuel generalizing c with
  | zero =>
      right
      simpa [evictFuel] using List.length_eq_zero.mp (Nat.le_zero.mp hfuel)
  | succ fuel ih =>
      unfold evictFuel
      split
      · next hguard =>
          apply ih
          rw [evictLRULocked_length c hguard.2]
          omega
      · next hguard =>
          rw [not_and_or] at hguard
          rcases hguard with h | h
          · left; omega
          · right; simpa using h

lemma sum_filter_split (l : List LruNode) (p : LruNode → Bool) :
    (((l.filter p).map (·.sizeBytes)).sum : Int) +
        ((l.filter (fun n => !(p n))).map (·.sizeBytes)).sum =
      (l.map (·.sizeBytes)).sum := by
  induction l with
  | nil => simp
  | cons n rest ih =>
      by_cases h : p n <;> simp [List.filter_cons, h] <;> omega

lemma filter_sum_nonneg (l : List LruNode) (p : LruNode → Bool)
    (h : ∀ n ∈ l, 0 ≤ n.sizeBytes) :
    0 ≤ (((l.filter p).map (·.sizeBytes)).sum : Int) := by
  apply List.sum_nonneg
  intro x hx
  simp only [List.mem_map] at hx
  obtain ⟨n, hn, rfl⟩ := hx
  exact h n (List.mem_of_mem_filter hn)

lemma calculateEntrySize_nonneg (e : CacheEntry) : 0 ≤ calculateEntrySize e := by
  unfold calculateEntrySize
  cases e.response <;> simp <;> positivity

lemma mem_of_getLast?_eq {α : Type} :
    ∀ {l : List α} {a : α}, l.getLast? = some a → a ∈ l
  | [], a, h => by simp at h
  | [x], a, h => by
      simp only [List.getLast?_singleton, Option.some.injEq] at h
      simp [h]
  | x :: y :: t, a, h => by
      have hm := mem_of_getLast?_eq (l := y :: t) (a := a)
        (by simpa [List.getLast?_cons_cons] using h)
      exact List.mem_cons_of_mem x hm

lemma cacheCleanup_lruList (c : CacheState) (now : Int) :
    (cacheCleanup c now).lruList =
      c.lruList.filter fun n => !decide (now > n.entry.expiresAt) := by
  simp only [cacheCleanup, cacheSave, decide_not]
  split
  · split <;> rfl
  · rfl

lemma cacheCleanup_currentSize (c : CacheState) (now : Int) :
    (cacheCleanup c now).currentSize =
      c.currentSize -
        ((c.lruList.filter fun n => decide (now > n.entry.expiresAt)).map
          (·.sizeBytes)).sum := by
  simp only [cacheCleanup, cacheSave]
  split
  · split <;> rfl
  · rfl

lemma cacheCleanup_max (c : CacheState) (now : Int) :
    (cacheCleanup c now).maxSizeBytes = c.maxSizeBytes := by
  simp only [cacheCleanup, cacheSave]
  split
  · split <;> rfl
  · rfl

lemma sizeInv_cacheSet (c : CacheState) (now : Int) (key : String)
    (entry? : Option CacheEntry) (ttl : Int) (hsz : sizeInv c) :
    sizeInv (cacheSet c now key entry? ttl).2 := by
  unfold cacheSet
  cases entry? with
  | none => exact hsz
  | some entry0 =>
      by_cases hbig : calculateEntrySize entry0 > c.maxSizeBytes
      · simpa [hbig] using hsz
      · have h1 := sizeInv_removeLocked c key hsz
        have h2 := sizeInv_evictFuel (removeLocked c key).1.lruList.length
          (removeLocked c key).1 (calculateEntrySize entry0) h1
        simp only [hbig, if_false, sizeInv] at h2 ⊢
        simp [h2]
        omega

lemma capInv_cacheSet (c : CacheState) (now : Int) (key : String)
    (entry? : Option CacheEntry) (ttl : Int)
    (hsz : sizeInv c) (hcap : capInv c) :
    capInv (cacheSet c now key entry? ttl).2 := by
  unfold cacheSet
  cases entry? with
  | none => exact hcap
  | some entry0 =>
      by_cases hbig : calculateEntrySize entry0 > c.maxSizeBytes
      · simpa [hbig] using hcap
      · have h1 := sizeInv_removeLocked c key hsz
        have hpost := evictFuel_post (removeLocked c key).1.lruList.length
          (removeLocked c key).1 (calculateEntrySize entry0) le_rfl
        have h2 := sizeInv_evictFuel (removeLocked c key).1.lruList.length
          (removeLocked c key).1 (calculateEntrySize entry0) h1
        simp only [hbig, if_false, capInv] at hpost ⊢
        rcases hpost with h | h
        · simp only [evictFuel_max, removeLocked_max] at h ⊢
          omega
        · rw [sizeInv, h] at h2
          simp only [List.map_nil, List.sum_nil] at h2
          simp only [evictFuel_max, removeLocked_max, h2]
          omega

lemma sizesNonneg_cacheSet (c : CacheState) (now : Int) (key : String)
    (entry? : Option CacheEntry) (ttl : Int) (hnn : sizesNonneg c) :
    sizesNonneg (cacheSet c now key entry? ttl).2 := by
  unfold cacheSet
  cases entry? with
  | none => exact hnn
  | some entry0 =>
      by_cases hbig : calculateEntrySize entry0 > c.maxSizeBytes
      · simpa [hbig] using hnn
      · have h1 := sizesNonneg_removeLocked c key hnn
        have h2 := sizesNonneg_evictFuel (removeLocked c key).1.lruList.length
          (removeLocked c key).1 (calculateEntrySize entry0) h1
        simp only [hbig, if_false, sizesNonneg] at h2 ⊢
        intro n hn
        simp only [List.mem_cons] at hn
        rcases hn with rfl | hn
        · exact calculateEntrySize_nonneg entry0
        · exact h2 n hn

/-- C1 (amended).  After every in-memory mutating operation — `Set`,
`Delete`, `Clear`, `Get` (including its lazy expired-entry removal), the
cleanup sweep and a single LRU eviction — `currentSize` equals the sum of
the live entries' recorded `sizeBytes` and `currentSize ≤ maxSizeBytes`;
a `Set` whose computed entry size exceeds `maxSizeBytes` returns the
capacity error and leaves the cache state unchanged.  `Load` preserves the
size-sum equality but performs no capacity check, so it does not in general
re-establish `currentSize ≤ maxSizeBytes` (see the counterexample). -/
theorem cache_capacity_invariant (c : CacheState)
    (hsz : sizeInv c) (hnn : sizesNonneg c) (hcap : capInv c)
    (hmax : 0 ≤ c.maxSizeBytes) :
    (∀ now key entry? ttl,
        sizeInv (cacheSet c now key entry? ttl).2 ∧
          capInv (cacheSet c now key entry? ttl).2) ∧
    (∀ key, sizeInv (cacheDelete c key).2 ∧ capInv (cacheDelete c key).2) ∧
    (sizeInv (cacheClear c) ∧ capInv (cacheClear c)) ∧
    (∀ now key, sizeInv (cacheGet c now key).2 ∧
        capInv (cacheGet c now key).2) ∧
    (∀ now, sizeInv (cacheCleanup c now) ∧ capInv (cacheCleanup c now)) ∧
    (sizeInv (evictLRULocked c) ∧ capInv (evictLRULocked c)) ∧
    (∀ now, sizeInv (cacheLoad c now)) ∧
    (∀ now key entry ttl, calculateEntrySize entry > c.maxSizeBytes →
        (cacheSet c now key (some entry) ttl).1 =
            some (.tooLarge (calculateEntrySize entry) c.maxSizeBytes) ∧
          (cacheSet c now key (some entry) ttl).2 = c) := by
  refine ⟨?_, ?_, ?_, ?_, ?_, ?_, ?_, ?_⟩
  · intro now key entry? ttl
    exact ⟨sizeInv_cacheSet c now key entry? ttl hsz,
           capInv_cacheSet c now key entry? ttl hsz hcap⟩
  · intro key
    constructor
    · exact sizeInv_removeLocked c key hsz
    · have := currentSize_removeLocked_le c key hnn
      simp only [cacheDelete, capInv, removeLocked_max]
      rw [capInv] at hcap
      omega
  · constructor
    · simp [cacheClear, sizeInv]
    · simpa [cacheClear, capInv] using hmax
  · intro now key
    unfold cacheGet
    cases hf : c.lruList.find? (fun m => m.key == key) with
    | none => exact ⟨hsz, hcap⟩
    | some n =>
        by_cases hexp : now > n.entry.expiresAt
        · simp only [hexp, if_true]
          constructor
          · exact sizeInv_removeLocked c key hsz
          · have := currentSize_removeLocked_le c key hnn
            simp only [capInv, removeLocked_max]
            rw [capInv] at hcap
            omega
        · simp only [hexp, if_false]
          constructor
          · have hval := removeKey_val_of_find? c.lruList key n hf
            simp only [sizeInv, List.map_cons, List.sum_cons, removeKey_sum,
              hval]
            rw [sizeInv] at hsz
            omega
          · exact hcap
  · intro now
    have hnnexp := filter_sum_nonneg c.lruList
      (fun n => decide (now > n.entry.expiresAt)) hnn
    have hsplit := sum_filter_split c.lruList
      (fun n => decide (now > n.entry.expiresAt))
    rw [sizeInv] at hsz
    rw [capInv] at hcap
    constructor
    · rw [sizeInv, cacheCleanup_lruList, cacheCleanup_currentSize]
      omega
    · rw [capInv, cacheCleanup_currentSize, cacheCleanup_max]
      omega
  · constructor
    · exact sizeInv_evictLRULocked c hsz
    · unfold evictLRULocked
      cases hl : c.lruList.getLast? with
      | none => exact hcap
      | some n =>
          have hmem : n ∈ c.lruList := mem_of_getLast?_eq hl
          have := hnn n hmem
          simp only [capInv]
          rw [capInv] at hcap
          omega
  · intro now
    unfold cacheLoad
    split
    · cases hd : c.disk with
      | none => exact hsz
      | some data =>
          rw [sizeInv] at hsz
          simp only [sizeInv, List.map_append, List.sum_append, hsz]
    · exact hsz
  · intro now key entry ttl hbig
    constructor <;> simp [cacheSet, hbig]

/-- C1 counterexample: `Load` does not enforce the capacity bound.  A cache
configured with `MaxSize = 1` MB (`maxSizeBytes = 1048576`) that loads a
snapshot holding one unexpired entry with recorded size 2000000 bytes ends
with `currentSize = 2000000 > maxSizeBytes`, violating the claimed
invariant for the Load operation. -/
theorem cache_load_capacity_cex :
    ¬ capInv (cacheLoad
      { maxSizeBytes := 1048576, persistConfigured := true,
        disk := some [("k", { expiresAt := 100, sizeBytes := 2000000 })] }
      0) := by
  decide

lemma not_mem_keys_removeKey (l : List LruNode) (key : String)
    (hnd : (l.map (·.key)).Nodup) :
    key ∉ (removeKey l key).1.map (·.key) := by
  induction l with
  | nil => simp [removeKey]
  | cons a rest ih =>
      simp only [List.map_cons, List.nodup_cons] at hnd
      by_cases h : a.key == key
      · simp only [removeKey, h, if_true]
        have : a.key = key := by simpa using h
        rw [← this]
        exact hnd.1
      · simp only [removeKey, h, if_false, Bool.false_eq_true, List.map_cons,
          List.mem_cons]
        push_neg
        refine ⟨?_, ih hnd.2⟩
        intro hk
        exact h (by simp [hk])

lemma not_mem_keys_removeLocked (c : CacheState) (key : String)
    (hnd : (c.lruList.map (·.key)).Nodup) :
    key ∉ (removeLocked c key).1.lruList.map (·.key) := by
  unfold removeLocked
  cases hf : c.lruList.find? (fun m => m.key == key) with
  | none =>
      intro hmem
      simp only [List.mem_map] at hmem
      obtain ⟨n, hn, hkey⟩ := hmem
      have := List.find?_eq_none.mp hf n hn
      simp [hkey] at this
  | some n => exact not_mem_keys_removeKey c.lruList key hnd

lemma evictLRULocked_sublist (c : CacheState) :
    (evictLRULocked c).lruList.Sublist c.lruList := by
  unfold evictLRULocked
  cases c.lruList.getLast? with
  | none => exact List.Sublist.refl _
  | some n => exact List.dropLast_sublist c.lruList

lemma evictFuel_sublist (fuel : Nat) (c : CacheState) (need : Int) :
    (evictFuel fuel c need).lruList.Sublist c.lruList := by
  induction fuel generalizing c with
  | zero => exact List.Sublist.refl _
  | succ fuel ih =>
      unfold evictFuel
      split
      · exact (ih (evictLRULocked c)).trans (evictLRULocked_sublist c)
      · exact List.Sublist.refl _

/-- `Get` on a state whose most-recently-used node holds `key`: a hit while
the entry is unexpired. -/
lemma cacheGet_head_hit (c : CacheState) (key : String) (e : CacheEntry)
    (sz t : Int) (rest : List LruNode)
    (hl : c.lruList = ⟨key, e, sz⟩ :: rest) (hfresh : ¬ t > e.expiresAt) :
    (cacheGet c t key).1 =
        some { e with lastAccessedAt := t, accessCount := e.accessCount + 1 } ∧
      (cacheGet c t key).2.lruList =
        ⟨key, { e with lastAccessedAt := t, accessCount := e.accessCount + 1 },
          sz⟩ :: rest ∧
      (cacheGet c t key).2.statsHits = c.statsHits + 1 ∧
      (cacheGet c t key).2.statsMisses = c.statsMisses := by
  simp [cacheGet, hl, removeKey, hfresh]

/-- `Get` on a state whose most-recently-used node holds `key`, once the
entry's TTL has elapsed: a miss that lazily removes the entry. -/
lemma cacheGet_head_expired (c : CacheState) (key : String) (e : CacheEntry)
    (sz t : Int) (rest : List LruNode)
    (hl : c.lruList = ⟨key, e, sz⟩ :: rest) (hexp : t > e.expiresAt) :
    (cacheGet c t key).1 = none ∧
      (cacheGet c t key).2.lruList = rest ∧
      (cacheGet c t key).2.statsMisses = c.statsMisses + 1 ∧
      (cacheGet c t key).2.statsHits = c.statsHits := by
  simp [cacheGet, removeLocked, hl, removeKey, hexp]

/-- The state produced by a successful `Set`: the new node sits at the front
of the recency list, over the survivors of the eviction loop. -/
lemma cacheSet_ok_state (c : CacheState) (now : Int) (key : String)
    (e : CacheEntry) (ttl : Int)
    (hsize : ¬ calculateEntrySize e > c.maxSizeBytes) :
    (cacheSet c now key (some e) ttl).1 = none ∧
      (cacheSet c now key (some e) ttl).2.lruList =
        ⟨key,
          { e with sizeBytes := calculateEntrySize e,
                   expiresAt := now + (if ttl = 0 then c.ttl else ttl),
                   promptHash := key },
          calculateEntrySize e⟩ ::
          (evictFuel (removeLocked c key).1.lruList.length
            (removeLocked c key).1 (calculateEntrySize e)).lruList ∧
      (cacheSet c now key (some e) ttl).2.statsHits = c.statsHits ∧
      (cacheSet c now key (some e) ttl).2.statsMisses = c.statsMisses := by
  have hlru : ∀ c' : CacheState, (evictLRULocked c').statsHits = c'.statsHits ∧
      (evictLRULocked c').statsMisses = c'.statsMisses := by
    intro c'
    unfold evictLRULocked
    cases c'.lruList.getLast? <;> exact ⟨rfl, rfl⟩
  have hh : ∀ fuel (c' : CacheState) need,
      (evictFuel fuel c' need).statsHits = c'.statsHits ∧
        (evictFuel fuel c' need).statsMisses = c'.statsMisses := by
    intro fuel
    induction fuel with
    | zero => intro c' need; exact ⟨rfl, rfl⟩
    | succ fuel ih =>
        intro c' need
        unfold evictFuel
        split
        · have h1 := ih (evictLRULocked c') need
          exact ⟨h1.1.trans (hlru c').1, h1.2.trans (hlru c').2⟩
        · exact ⟨rfl, rfl⟩
  have hr : (removeLocked c key).1.statsHits = c.statsHits ∧
      (removeLocked c key).1.statsMisses = c.statsMisses := by
    unfold removeLocked
    cases c.lruList.find? (fun m => m.key == key) <;> exact ⟨rfl, rfl⟩
  refine ⟨by simp [cacheSet, hsize], by simp [cacheSet, hsize], ?_, ?_⟩
  · simp only [cacheSet, hsize, if_false]
    rw [(hh _ _ _).1, hr.1]
  · simp only [cacheSet, hsize, if_false]
    rw [(hh _ _ _).2, hr.2]

/-- C2 (confirmed).  For every cache state with distinct keys and every
non-nil entry that fits in the cache: a `Get` at any time `t` not past the
TTL that a `Set` at `now` assigned returns the stored entry with its
`accessCount` incremented, bumps the hit counter, and keeps the key at the
front of the recency order; a `Get` at any time `t'` strictly past the
assigned expiry returns not-found, bumps the miss counter, and lazily
removes the entry (the key is no longer live). -/
theorem cache_get_after_set (c : CacheState) (key : String) (e : CacheEntry)
    (ttl now t t' : Int)
    (hnd : (c.lruList.map (·.key)).Nodup)
    (hsize : ¬ calculateEntrySize e > c.maxSizeBytes)
    (hfresh : ¬ t > now + (if ttl = 0 then c.ttl else ttl))
    (hexp : t' > now + (if ttl = 0 then c.ttl else ttl)) :
    (cacheSet c now key (some e) ttl).1 = none ∧
      (cacheGet (cacheSet c now key (some e) ttl).2 t key).1 =
        some { e with
          sizeBytes := calculateEntrySize e,
          expiresAt := now + (if ttl = 0 then c.ttl else ttl),
          promptHash := key, lastAccessedAt := t,
          accessCount := e.accessCount + 1 } ∧
      (cacheGet (cacheSet c now key (some e) ttl).2 t key).2.statsHits =
        c.statsHits + 1 ∧
      ((cacheGet (cacheSet c now key (some e) ttl).2 t key).2.lruList.head?.map
        (·.key)) = some key ∧
      (cacheGet (cacheSet c now key (some e) ttl).2 t' key).1 = none ∧
      (cacheGet (cacheSet c now key (some e) ttl).2 t' key).2.statsMisses =
        c.statsMisses + 1 ∧
      key ∉
        ((cacheGet (cacheSet c now key (some e) ttl).2 t' key).2.lruList.map
          (·.key)) := by
  obtain ⟨hs1, hs2, hs3, hs4⟩ := cacheSet_ok_state c now key e ttl hsize
  have hkeytail : key ∉
      ((evictFuel (removeLocked c key).1.lruList.length
        (removeLocked c key).1 (calculateEntrySize e)).lruList.map (·.key)) := by
    intro hmem
    apply not_mem_keys_removeLocked c key hnd
    have hsub := (evictFuel_sublist (removeLocked c key).1.lruList.length
      (removeLocked c key).1 (calculateEntrySize e)).map (·.key)
    exact hsub.subset hmem
  have hhit := cacheGet_head_hit (cacheSet c now key (some e) ttl).2 key
    { e with sizeBytes := calculateEntrySize e,
             expiresAt := now + (if ttl = 0 then c.ttl else ttl),
             promptHash := key }
    (calculateEntrySize e) t _ hs2 hfresh
  have hmiss := cacheGet_head_expired (cacheSet c now key (some e) ttl).2 key
    { e with sizeBytes := calculateEntrySize e,
             expiresAt := now + (if ttl = 0 then c.ttl else ttl),
             promptHash := key }
    (calculateEntrySize e) t' _ hs2 hexp
  refine ⟨hs1, hhit.1, ?_, ?_, hmiss.1, ?_, ?_⟩
  · rw [hhit.2.2.1, hs3]
  · rw [hhit.2.1]
    simp
  · rw [hmiss.2.2.1, hs4]
  · rw [hmiss.2.1]
    exact hkeytail

/-- Witness for `cache_get_after_set` at a concrete input: a fresh cache
with capacity 1000 bytes and default TTL 50, `Set` at time 0 with TTL 10,
`Get` at time 5 (hit) and at time 11 (expired miss). -/
theorem cache_get_after_set_witness :
    (cacheSet { maxSizeBytes := 1000, ttl := 50 } 0 "k" (some {}) 10).1 =
        none ∧
      (cacheGet (cacheSet { maxSizeBytes := 1000, ttl := 50 } 0 "k"
          (some {}) 10).2 5 "k").1 =
        some { sizeBytes := 200, expiresAt := 10, promptHash := "k",
               lastAccessedAt := 5, accessCount := 1 } ∧
      (cacheGet (cacheSet { maxSizeBytes := 1000, ttl := 50 } 0 "k"
          (some {}) 10).2 5 "k").2.statsHits = 1 ∧
      ((cacheGet (cacheSet { maxSizeBytes := 1000, ttl := 50 } 0 "k"
          (some {}) 10).2 5 "k").2.lruList.head?.map (·.key)) = some "k" ∧
      (cacheGet (cacheSet { maxSizeBytes := 1000, ttl := 50 } 0 "k"
          (some {}) 10).2 11 "k").1 = none ∧
      (cacheGet (cacheSet { maxSizeBytes := 1000, ttl := 50 } 0 "k"
          (some {}) 10).2 11 "k").2.statsMisses = 1 ∧
      "k" ∉
        ((cacheGet (cacheSet { maxSizeBytes := 1000, ttl := 50 } 0 "k"
          (some {}) 10).2 11 "k").2.lruList.map (·.key)) := by
  have h := cache_get_after_set { maxSizeBytes := 1000, ttl := 50 } "k" {}
    10 0 5 11 (by decide) (by decide) (by decide) (by decide)
  simpa using h

/-- The A/B/C LRU scenario: an empty cache with 500 bytes of capacity and
default TTL 100; entries of 200 bytes each ({} has no response, so
`calculateEntrySize = 200`).  `A` is inserted at time 0, `B` at time 1, `A`
is read at time 2, `C` is inserted at time 3 and forces one eviction. -/
def lruDemoFinal : CacheState :=
  (cacheSet
    (cacheGet
      (cacheSet
        (cacheSet { maxSizeBytes := 500, ttl := 100 } 0 "A" (some {}) 0).2
        1 "B" (some {}) 0).2
      2 "A").2
    3 "C" (some {}) 0).2

/-- C4 (confirmed).  A capacity-triggered eviction always removes the node
at the tail of the recency list and increments the eviction counter; and in
the concrete A, B, C scenario — A, B inserted in order, A read again, then C
inserted with capacity forcing exactly one eviction — the evicted entry is B
(the final recency order is [C, A] and the eviction counter is 1). -/
theorem lru_eviction_order (c : CacheState) (h : c.lruList ≠ []) :
    ((evictLRULocked c).lruList = c.lruList.dropLast ∧
      (evictLRULocked c).statsEvictions = c.statsEvictions + 1) ∧
    (lruDemoFinal.lruList.map (·.key) = ["C", "A"] ∧
      "B" ∉ lruDemoFinal.lruList.map (·.key) ∧
      lruDemoFinal.statsEvictions = 1) := by
  constructor
  · unfold evictLRULocked
    cases hl : c.lruList.getLast? with
    | none =>
        rw [List.getLast?_eq_none_iff] at hl
        exact absurd hl h
    | some n => exact ⟨rfl, rfl⟩
  · refine ⟨?_, ?_, ?_⟩ <;> decide

/-- A concrete one-entry cache used to instantiate `lru_eviction_order`. -/
def lruWitnessInit : CacheState :=
  { lruList := [⟨"x", {}, 7⟩], currentSize := 7, maxSizeBytes := 100 }

/-- Witness for `lru_eviction_order` at a concrete nonempty cache. -/
theorem lru_eviction_order_witness :
    ((evictLRULocked lruWitnessInit).lruList =
        lruWitnessInit.lruList.dropLast ∧
      (evictLRULocked lruWitnessInit).statsEvictions =
        lruWitnessInit.statsEvictions + 1) ∧
    (lruDemoFinal.lruList.map (·.key) = ["C", "A"] ∧
      "B" ∉ lruDemoFinal.lruList.map (·.key) ∧
      lruDemoFinal.statsEvictions = 1) :=
  lru_eviction_order lruWitnessInit (by decide)

/-- C8 (amended).  After `Clear()` the cache holds no entries, `currentSize`
is zero, the `entries`, `sizeBytes` and `evictions` statistics reported by
`Stats()` are zero, and the on-disk snapshot is removed when persistence is
configured; the `hits` and `misses` counters are NOT reset — `Stats()` still
reports their pre-`Clear` values. -/
theorem cache_clear_semantics (c : CacheState) :
    (cacheClear c).lruList = [] ∧
      (cacheClear c).currentSize = 0 ∧
      (cacheStats (cacheClear c)).entries = 0 ∧
      (cacheStats (cacheClear c)).sizeBytes = 0 ∧
      (cacheStats (cacheClear c)).evictions = 0 ∧
      (c.persistConfigured = true → (cacheClear c).disk = none) ∧
      (cacheStats (cacheClear c)).hits = c.statsHits ∧
      (cacheStats (cacheClear c)).misses = c.statsMisses := by
  refine ⟨rfl, rfl, rfl, rfl, rfl, ?_, rfl, rfl⟩
  intro hp
  simp [cacheClear, hp]

/-- C8 counterexample: `Clear` does not reset the hit and miss counters.
On a cache that has recorded 3 hits and 2 misses, `Stats()` right after
`Clear()` still reports 3 hits and 2 misses, not zero. -/
theorem cache_clear_stats_cex :
    (cacheStats (cacheClear { statsHits := 3, statsMisses := 2 })).hits = 3 ∧
      (cacheStats (cacheClear { statsHits := 3, statsMisses := 2 })).misses
        = 2 := by
  decide

/-- A concrete persistence-configured cache with 3 recorded hits, used to
instantiate `cache_clear_semantics`. -/
def clearWitnessInit : CacheState :=
  { statsHits := 3, persistConfigured := true, disk := some [("k", {})] }

/-- Witness for `cache_clear_semantics` on a persistence-configured cache. -/
theorem cache_clear_semantics_witness :
    (cacheClear clearWitnessInit).disk = none ∧
      (cacheStats (cacheClear clearWitnessInit)).hits = 3 :=
  ⟨(cache_clear_semantics clearWitnessInit).2.2.2.2.2.1 rfl,
    (cache_clear_semantics clearWitnessInit).2.2.2.2.2.2.1⟩

/-- Witness for `cache_capacity_invariant` at a concrete cache state. -/
theorem cache_capacity_invariant_witness :
    sizeInv (cacheSet { maxSizeBytes := 1000, ttl := 50 } 0 "k" (some {}) 5).2 ∧
    capInv (cacheSet { maxSizeBytes := 1000, ttl := 50 } 0 "k" (some {}) 5).2 ∧
    sizeInv (cacheLoad { maxSizeBytes := 1000, ttl := 50 } 0) := by
  have h := cache_capacity_invariant { maxSizeBytes := 1000, ttl := 50 }
    (by decide) (by decide) (by decide) (by decide)
  exact ⟨(h.1 0 "k" (some {}) 5).1, (h.1 0 "k" (some {}) 5).2,
    h.2.2.2.2.2.2.1 0⟩

/-! ## Retry controller (`client.go`) -/

/-- `RetryConfig` from `client.go`.  Durations in nanoseconds; the float64
`Multiplier` is modelled over `ℚ`. -/
structure RetryConfig where
  maxRetries : Nat
  initialDelay : Int
  maxDelay : Int
  multiplier : ℚ
  retryableHTTPCodes : List Int
deriving Repr, DecidableEq

/-- The retry configuration built in `NewOpenAIClient`:
`MaxRetries: 3, InitialDelay: 1s, MaxDelay: 30s, Multiplier: 2.0,
RetryableHTTPCodes: [429, 500, 502, 503, 504]`. -/
def defaultRetryConfig : RetryConfig :=
  { maxRetries := 3, initialDelay := 1000000000, maxDelay := 30000000000,
    multiplier := 2, retryableHTTPCodes := [429, 500, 502, 503, 504] }

/-- `calculateBackoff` from `client.go`:
`delay := float64(InitialDelay) * Multiplier^attempt`, capped at `MaxDelay`,
then truncated back to an integer duration.  All values reached by the
default configuration are integers, so the `ℚ` model is exact. -/
def calculateBackoff (rc : RetryConfig) (attempt : Nat) : Int :=
  let delay : ℚ := (rc.initialDelay : ℚ) * rc.multiplier ^ attempt
  let capped : ℚ :=
    if delay > (rc.maxDelay : ℚ) then (rc.maxDelay : ℚ) else delay
  ⌊capped⌋

/-- C6 (confirmed).  For every attempt `n`,
`calculateBackoff n = min(initialDelay * multiplier^n, maxDelay)`; with the
default configuration (1s initial delay, multiplier 2, 30s cap) the delays
for attempts 0..5 are exactly 1s, 2s, 4s, 8s, 16s, 30s, and every attempt
past 5 also yields 30s. -/
theorem backoff_monotonicity :
    (∀ (rc : RetryConfig) (n : Nat),
        calculateBackoff rc n =
          ⌊min ((rc.initialDelay : ℚ) * rc.multiplier ^ n)
            (rc.maxDelay : ℚ)⌋) ∧
    calculateBackoff defaultRetryConfig 0 = 1000000000 ∧
    calculateBackoff defaultRetryConfig 1 = 2000000000 ∧
    calculateBackoff defaultRetryConfig 2 = 4000000000 ∧
    calculateBackoff defaultRetryConfig 3 = 8000000000 ∧
    calculateBackoff defaultRetryConfig 4 = 16000000000 ∧
    calculateBackoff defaultRetryConfig 5 = 30000000000 ∧
    (∀ n : Nat, 5 < n →
        calculateBackoff defaultRetryConfig n = 30000000000) := by
  refine ⟨?_, by norm_num [calculateBackoff, defaultRetryConfig],
    by norm_num [calculateBackoff, defaultRetryConfig],
    by norm_num [calculateBackoff, defaultRetryConfig],
    by norm_num [calculateBackoff, defaultRetryConfig],
    by norm_num [calculateBackoff, defaultRetryConfig],
    by norm_num [calculateBackoff, defaultRetryConfig], ?_⟩
  · intro rc n
    unfold calculateBackoff
    by_cases h : (rc.initialDelay : ℚ) * rc.multiplier ^ n > (rc.maxDelay : ℚ)
    · simp only [h, if_true]
      rw [min_eq_right (le_of_lt h)]
    · simp only [h, if_false]
      rw [min_eq_left (not_lt.mp h)]
  · intro n hn
    have hpow : (2 : ℚ) ^ 6 ≤ 2 ^ n :=
      pow_le_pow_right₀ (by norm_num) (by omega)
    have hlt : (30000000000 : ℚ) < 1000000000 * 2 ^ n := by
      have h6 : (30000000000 : ℚ) < 1000000000 * 2 ^ 6 := by norm_num
      have := mul_le_mul_of_nonneg_left hpow (by norm_num : (0:ℚ) ≤ 1000000000)
      linarith
    unfold calculateBackoff defaultRetryConfig
    simp only
    rw [if_pos (by push_cast; linarith)]
    norm_num

/-- Witness for `backoff_monotonicity` at attempt 10. -/
theorem backoff_monotonicity_witness :
    calculateBackoff defaultRetryConfig 10 = 30000000000 :=
  backoff_monotonicity.2.2.2.2.2.2.2 10 (by decide)

/-! ## Error classification (`client.go` `isRetryableError`) -/

/-- Model of the Go error values that can reach `isRetryableError`.
`apiError` models a (possibly wrapped) `*openai.Error` carrying an HTTP
status code; `deadlineExceeded` models `context.DeadlineExceeded`;
`canceled` models `context.Canceled`; `connectionError` models a
transport-level network failure (e.g. `*net.OpError`/`*url.Error`) that is
neither an `*openai.Error` nor wraps `context.DeadlineExceeded`; `simple`
models `errors.New`; `wrapped` models `fmt.Errorf("...: %w", cause)`. -/
inductive GoError where
  | apiError (statusCode : Int)
  | deadlineExceeded
  | canceled
  | connectionError (msg : String)
  | simple (msg : String)
  | wrapped (msg : String) (cause : GoError)
deriving Repr, DecidableEq

/-- `errors.Is(err, context.DeadlineExceeded)`: true when the error or any
wrapped cause is the deadline-exceeded sentinel. -/
def GoError.isDeadline : GoError → Bool
  | .deadlineExceeded => true
  | .wrapped _ e => e.isDeadline
  | _ => false

/-- `errors.As(err, &apiErr)` for `*openai.Error`: returns the status code
of the first API error in the wrap chain, if any. -/
def GoError.asApiStatus : GoError → Option Int
  | .apiError code => some code
  | .wrapped _ e => e.asApiStatus
  | _ => none

/-- `isRetryableError` from `client.go`: nil is not retryable; an
`*openai.Error` is retryable when its status is 429 or in
`RetryableHTTPCodes`; otherwise the only retryable error is one satisfying
`errors.Is(err, context.DeadlineExceeded)`. -/
def isRetryableError (rc : RetryConfig) (err : Option GoError) : Bool :=
  match err with
  | none => false
  | some e =>
      match e.asApiStatus with
      | some code =>
          if code = 429 then true
          else if rc.retryableHTTPCodes.contains code then true
          else e.isDeadline
      | none => e.isDeadline

/-- C5 counterexample: the claim says every connection/network error is
retryable, but `isRetryableError` only recognises `*openai.Error` status
codes and `context.DeadlineExceeded` — a plain connection-refused error is
classified NOT retryable. -/
theorem retryable_connection_error_cex :
    isRetryableError defaultRetryConfig
      (some (.connectionError "connection refused")) = false := by
  decide

/-- C5 (amended).  `isRetryableError` returns true exactly for
deadline-exceeded (directly or wrapped) and for API errors whose status code
is 429 or lies in the configured set {429, 500, 502, 503, 504}; it returns
false for nil, authentication failures (API status 401), malformed-request
errors (API status 400), plain connection/network errors that do not wrap
deadline-exceeded, and anything else not explicitly classified retryable. -/
theorem retryable_error_classification :
    (∀ code : Int, code ∈ defaultRetryConfig.retryableHTTPCodes →
        isRetryableError defaultRetryConfig (some (.apiError code)) = true) ∧
    isRetryableError defaultRetryConfig (some .deadlineExceeded) = true ∧
    isRetryableError defaultRetryConfig
      (some (.wrapped "request failed" .deadlineExceeded)) = true ∧
    isRetryableError defaultRetryConfig none = false ∧
    isRetryableError defaultRetryConfig (some (.apiError 401)) = false ∧
    isRetryableError defaultRetryConfig (some (.apiError 400)) = false ∧
    isRetryableError defaultRetryConfig (some .canceled) = false ∧
    (∀ msg : String, isRetryableError defaultRetryConfig
        (some (.connectionError msg)) = false) ∧
    (∀ msg : String, isRetryableError defaultRetryConfig
        (some (.simple msg)) = false) ∧
    (∀ code : Int, code ≠ 429 →
        code ∉ defaultRetryConfig.retryableHTTPCodes →
        isRetryableError defaultRetryConfig (some (.apiError code)) =
          false) := by
  refine ⟨?_, by decide, by decide, by decide, by decide, by decide,
    by decide, ?_, ?_, ?_⟩
  · intro code hc
    fin_cases hc <;> decide
  · intro msg
    rfl
  · intro msg
    rfl
  · intro code h429 hmem
    simp only [isRetryableError, GoError.asApiStatus, GoError.isDeadline,
      if_neg h429]
    rw [if_neg (by simpa using hmem)]

/-- Witness for `retryable_error_classification` at concrete inputs. -/
theorem retryable_error_classification_witness :
    isRetryableError defaultRetryConfig (some (.apiError 503)) = true ∧
      isRetryableError defaultRetryConfig (some (.apiError 418)) = false :=
  ⟨retryable_error_classification.1 503 (by decide),
    retryable_error_classification.2.2.2.2.2.2.2.2.2 418 (by decide)
      (by decide)⟩

/-! ## The retry loop of `Chat` (`client.go`) -/

/-- One choice of a chat completion returned by the remote service. -/
structure ChatCompletionChoice where
  messageContent : String := ""
  finishReason : String := ""
deriving Repr, DecidableEq

/-- An `openai.ChatCompletion` as far as `Chat` reads it. -/
structure ChatCompletion where
  id : String := ""
  model : String := ""
  created : Int := 0
  object : String := ""
  choices : List ChatCompletionChoice := []
  usage : Usage := {}
deriving Repr, DecidableEq

/-- Result of the retry loop in `Chat`. -/
inductive RetryOutcome (α : Type) where
  /-- an attempt succeeded -/
  | ok (v : α)
  /-- a non-retryable error, or the last error after exhausting retries,
  returned unmodified -/
  | err (e : GoError)
  /-- `ctx.Err()` observed while sleeping between attempts -/
  | ctxDone (e : GoError)
deriving Repr, DecidableEq

/-- The retry loop of `Chat` (`for attempt := 0; attempt <= MaxRetries; ...`).
`net attempt` is the outcome of the `attempt`-th network call;
`cb attempt = some e` means the caller's context fires (with `ctx.Err() = e`)
during the backoff sleep that follows attempt `attempt`.  `left` counts the
attempts still allowed after the current one (`MaxRetries - attempt` in Go);
the second component of the result is the number of network calls made. -/
def retryFrom {α : Type} (rc : RetryConfig) (net : Nat → Except GoError α)
    (cb : Nat → Option GoError) : Nat → Nat → RetryOutcome α × Nat
  | left, attempt =>
      match net attempt with
      | .ok v => (.ok v, 1)
      | .error e =>
          if isRetryableError rc (some e) then
            match left with
            | 0 => (.err e, 1)
            | left' + 1 =>
                match cb attempt with
                | some ce => (.ctxDone ce, 1)
                | none =>
                    let r := retryFrom rc net cb left' (attempt + 1)
                    (r.1, r.2 + 1)
          else (.err e, 1)

/-- The whole retry loop as run by `Chat`, starting at attempt 0 with
`MaxRetries` further attempts allowed. -/
def chatRetry {α : Type} (rc : RetryConfig) (net : Nat → Except GoError α)
    (cb : Nat → Option GoError) : RetryOutcome α × Nat :=
  retryFrom rc net cb rc.maxRetries 0

lemma retryFrom_calls_le {α : Type} (rc : RetryConfig)
    (net : Nat → Except GoError α) (cb : Nat → Option GoError) :
    ∀ left attempt, (retryFrom rc net cb left attempt).2 ≤ left + 1 := by
  intro left
  induction left with
  | zero =>
      intro attempt
      unfold retryFrom
      cases net attempt with
      | ok v => simp
      | error e => split <;> simp
  | succ left ih =>
      intro attempt
      unfold retryFrom
      cases hnet : net attempt with
      | ok v => simp
      | error e =>
          by_cases hr : isRetryableError rc (some e) = true
          · simp only [hr, if_true]
            cases cb attempt with
            | some ce => simp
            | none =>
                have := ih (attempt + 1)
                simp only
                omega
          · simp [hr]

/-- C10 (confirmed).  The retry loop of `Chat` is a total function that
makes at most `MaxRetries + 1` network calls (4 with the default
configuration), and whenever an attempt fails with a non-retryable error the
loop stops immediately — exactly one call is made from that attempt on and
the error is returned unmodified. -/
theorem chat_retry_bound {α : Type} (net : Nat → Except GoError α)
    (cb : Nat → Option GoError) :
    (chatRetry defaultRetryConfig net cb).2 ≤
        defaultRetryConfig.maxRetries + 1 ∧
      defaultRetryConfig.maxRetries + 1 = 4 ∧
      (∀ left attempt e, net attempt = .error e →
        isRetryableError defaultRetryConfig (some e) = false →
        retryFrom defaultRetryConfig net cb left attempt = (.err e, 1)) := by
  refine ⟨retryFrom_calls_le defaultRetryConfig net cb _ 0, rfl, ?_⟩
  intro left attempt e hne hnr
  unfold retryFrom
  rw [hne]
  cases left <;> simp [hnr]

/-- Witness for `chat_retry_bound`: a network that always fails with a
non-retryable 400 makes exactly one call. -/
theorem chat_retry_bound_witness :
    (chatRetry defaultRetryConfig
        (fun _ => (.error (.apiError 400) : Except GoError ChatCompletion))
        (fun _ => none)).2 ≤ defaultRetryConfig.maxRetries + 1 ∧
      retryFrom defaultRetryConfig
        (fun _ => (.error (.apiError 400) : Except GoError ChatCompletion))
        (fun _ => none) defaultRetryConfig.maxRetries 0 =
        (.err (.apiError 400), 1) := by
  have h := chat_retry_bound
    (fun _ => (.error (.apiError 400) : Except GoError ChatCompletion))
    (fun _ => none)
  exact ⟨h.1, h.2.2 defaultRetryConfig.maxRetries 0 (.apiError 400) rfl
    (by decide)⟩

/-! ## Streaming processor (`stream.go` `HandleStream`) -/

/-- A chunk of a streamed response (`StreamChunk` in `client.go`). -/
structure StreamChunk where
  content : String := ""
  error : Option GoError := none
  done : Bool := false
deriving Repr, DecidableEq

/-- A chunk is terminal when it marks completion or carries an error. -/
def isTerminal (ch : StreamChunk) : Bool := ch.done || ch.error.isSome

/-- One choice inside a streamed completion chunk, as `HandleStream` reads
it: the delta's content and an optional finish reason. -/
structure StreamChoice where
  deltaContent : String := ""
  finishReason : String := ""
deriving Repr, DecidableEq

/-- One event produced by the underlying SDK stream. -/
structure StreamEvent where
  choices : List StreamChoice := []
deriving Repr, DecidableEq

/-- The chunks `HandleStream` emits for one source event: the first choice's
delta content, when non-empty, becomes one content chunk; a finish reason is
only logged. -/
def emitForEvent (ev : StreamEvent) : List StreamChunk :=
  match ev.choices with
  | [] => []
  | choice :: _ =>
      if choice.deltaContent ≠ "" then [{ content := choice.deltaContent }]
      else []

/-- The sequence of chunks the `HandleStream` goroutine sends on its channel
before closing it.  The source is modelled by its event list and by the
`stream.Err()` value observed after the loop (`endErr`); `cancel i = some e`
models `ctx.Done()` being fired (with `ctx.Err() = e`) at the check that
precedes processing the `i`-th event.  On cancellation or source failure a
single error terminal chunk is sent; on clean end a single done chunk. -/
def handleStreamChunks (cancel : Nat → Option GoError)
    (endErr : Option GoError) : List StreamEvent → List StreamChunk
  | [] =>
      match endErr with
      | some e => [{ error := some e, done := true }]
      | none => [{ done := true }]
  | ev :: rest =>
      match cancel 0 with
      | some ce => [{ error := some ce, done := true }]
      | none =>
          emitForEvent ev ++
            handleStreamChunks (fun j => cancel (j + 1)) endErr rest

lemma emitForEvent_not_terminal (ev : StreamEvent) :
    ∀ ch ∈ emitForEvent ev, isTerminal ch = false := by
  obtain ⟨cs⟩ := ev
  cases cs with
  | nil =>
      intro ch hch
      simp [emitForEvent] at hch
  | cons choice rest =>
      intro ch hch
      simp only [emitForEvent] at hch
      by_cases h : choice.deltaContent ≠ ""
      · rw [if_pos h] at hch
        simp only [List.mem_singleton] at hch
        subst hch
        rfl
      · rw [if_neg h] at hch
        simp at hch

/-- Shape of every chunk list `HandleStream` produces: some non-terminal
content chunks followed by exactly one terminal chunk. -/
lemma handleStream_shape (endErr : Option GoError) :
    ∀ (events : List StreamEvent) (cancel : Nat → Option GoError),
      ∃ (pre : List StreamChunk) (t : StreamChunk),
        handleStreamChunks cancel endErr events = pre ++ [t] ∧
          (∀ ch ∈ pre, isTerminal ch = false) ∧ isTerminal t = true := by
  intro events
  induction events with
  | nil =>
      intro cancel
      cases endErr with
      | none => exact ⟨[], { done := true }, by simp [handleStreamChunks], by simp, rfl⟩
      | some e =>
          exact ⟨[], { error := some e, done := true },
            by simp [handleStreamChunks], by simp, rfl⟩
  | cons ev rest ih =>
      intro cancel
      cases hc : cancel 0 with
      | some ce =>
          refine ⟨[], { error := some ce, done := true }, ?_, by simp, rfl⟩
          simp [handleStreamChunks, hc]
      | none =>
          obtain ⟨pre, t, heq, hpre, ht⟩ := ih (fun j => cancel (j + 1))
          refine ⟨emitForEvent ev ++ pre, t, ?_, ?_, ht⟩
          · simp [handleStreamChunks, hc, heq]
          · intro ch hch
            rcases List.mem_append.mp hch with h | h
            · exact emitForEvent_not_terminal ev ch h
            · exact hpre ch h

/-- With no cancellation, the terminal chunk carries exactly the source's
final error status. -/
lemma handleStream_no_cancel (endErr : Option GoError) :
    ∀ (events : List StreamEvent) (cancel : Nat → Option GoError),
      (∀ i, cancel i = none) →
      (handleStreamChunks cancel endErr events).getLast? =
        some { content := "", error := endErr, done := true } := by
  intro events
  induction events with
  | nil =>
      intro cancel _
      cases endErr <;> simp [handleStreamChunks]
  | cons ev rest ih =>
      intro cancel hnone
      simp only [handleStreamChunks, hnone 0]
      rw [List.getLast?_append,
        ih (fun j => cancel (j + 1)) (fun i => hnone (i + 1))]
      rfl

/-- If the context fires at the check before event `i` (and not before), the
terminal chunk carries the context's error. -/
lemma handleStream_cancel_fires (endErr : Option GoError) :
    ∀ (events : List StreamEvent) (cancel : Nat → Option GoError)
      (i : Nat) (e : GoError),
      i < events.length → (∀ j, j < i → cancel j = none) →
      cancel i = some e →
      (handleStreamChunks cancel endErr events).getLast? =
        some { content := "", error := some e, done := true } := by
  intro events
  induction events with
  | nil =>
      intro cancel i e hi _ _
      simp at hi
  | cons ev rest ih =>
      intro cancel i e hi hbefore hfire
      cases i with
      | zero =>
          simp [handleStreamChunks, hfire]
      | succ i' =>
          have h0 : cancel 0 = none := hbefore 0 (by omega)
          simp only [handleStreamChunks, h0]
          rw [List.getLast?_append,
            ih (fun j => cancel (j + 1)) i' e (by simpa using hi)
              (fun j hj => hbefore (j + 1) (by omega)) hfire]
          rfl

/-- C3 (confirmed).  Every chunk sequence produced by the `HandleStream`
goroutine contains exactly one terminal chunk; that terminal chunk is the
last element (no chunk of any kind follows it, and the channel is closed
once, after it); with no cancellation the terminal chunk carries the
source's final error (or clean `done` when the source ends without error),
and when the caller's context fires at the check before event `i` the
terminal chunk carries the context error. -/
theorem stream_termination (cancel : Nat → Option GoError)
    (endErr : Option GoError) (events : List StreamEvent) :
    (handleStreamChunks cancel endErr events).countP (isTerminal ·) = 1 ∧
      handleStreamChunks cancel endErr events ≠ [] ∧
      (∀ ch ∈ (handleStreamChunks cancel endErr events).dropLast,
        isTerminal ch = false) ∧
      (∀ t, (handleStreamChunks cancel endErr events).getLast? = some t →
        isTerminal t = true) ∧
      ((∀ i, cancel i = none) →
        (handleStreamChunks cancel endErr events).getLast? =
          some { content := "", error := endErr, done := true }) ∧
      (∀ i e, i < events.length → (∀ j, j < i → cancel j = none) →
        cancel i = some e →
        (handleStreamChunks cancel endErr events).getLast? =
          some { content := "", error := some e, done := true }) := by
  obtain ⟨pre, t, heq, hpre, ht⟩ := handleStream_shape endErr events cancel
  refine ⟨?_, ?_, ?_, ?_, ?_, ?_⟩
  · rw [heq, List.countP_append]
    have hz : pre.countP (isTerminal ·) = 0 := by
      rw [List.countP_eq_zero]
      intro ch hch
      simp [hpre ch hch]
    simp [hz, ht]
  · rw [heq]; simp
  · rw [heq, List.dropLast_concat]
    exact hpre
  · intro t' ht'
    rw [heq, List.getLast?_concat] at ht'
    cases ht'
    exact ht
  · exact handleStream_no_cancel endErr events cancel
  · intro i e hi hb hf
    exact handleStream_cancel_fires endErr events cancel i e hi hb hf

/-- Witness for `stream_termination` at a concrete stream: two events (one
content delta "he", one empty delta) ending cleanly with no error and no
cancellation. -/
theorem stream_termination_witness :
    (handleStreamChunks (fun _ => none) none
        [{ choices := [{ deltaContent := "he" }] },
         { choices := [{ deltaContent := "" }] }]).countP (isTerminal ·) =
      1 ∧
    (handleStreamChunks (fun _ => none) none
        [{ choices := [{ deltaContent := "he" }] },
         { choices := [{ deltaContent := "" }] }]).getLast? =
      some { content := "", error := none, done := true } := by
  have h := stream_termination (fun _ => none) none
    [{ choices := [{ deltaContent := "he" }] },
     { choices := [{ deltaContent := "" }] }]
  exact ⟨h.1, h.2.2.2.2.1 (fun i => rfl)⟩

/-! ## Rate limiter (`client.go` `RateLimiter.Wait`) -/

/-- One minute in nanoseconds (`time.Minute`). -/
def minuteNs : Int := 60000000000

/-- `RateLimiter` from `client.go`.  `lastRequestTime = none` models the
zero `time.Time` (`IsZero`). -/
structure RateLimiterState where
  lastRequestTime : Option Int := none
  minInterval : Int := 0
  requestsPerMin : Nat := 0
  requestCount : Nat := 0
  windowStart : Int := 0
deriving Repr, DecidableEq

/-- Outcome of a Go `select` between `time.After(deadline - cur)` and
`ctx.Done()`: the cancellation branch is taken when the context is cancelled
strictly before the timer fires (both waits in `Wait` are over strictly
positive durations, so an already-cancelled context always takes this
branch).  `cancelAt` is the absolute time from which the context is done. -/
def ctxFires (cancelAt : Option Int) (deadline : Int) : Bool :=
  match cancelAt with
  | none => false
  | some tc => decide (tc < deadline)

/-- The minimum-interval step of `Wait` (its last two blocks): `elapsed` is
measured from the `now` captured at entry, while `cur` is the wall-clock
time after any window wait; on success `lastRequestTime` is set to the wall
time at return and `requestCount` is incremented. -/
def rlWaitInterval (r : RateLimiterState) (cancelAt : Option Int)
    (now cur : Int) : Option GoError × RateLimiterState :=
  match r.lastRequestTime with
  | some lrt =>
      if now - lrt < r.minInterval then
        if ctxFires cancelAt (cur + (r.minInterval - (now - lrt))) then
          (some .canceled, r)
        else
          (none,
            { r with
              lastRequestTime := some (cur + (r.minInterval - (now - lrt))),
              requestCount := r.requestCount + 1 })
      else
        (none, { r with lastRequestTime := some cur,
                        requestCount := r.requestCount + 1 })
  | none =>
      (none, { r with lastRequestTime := some cur,
                      requestCount := r.requestCount + 1 })

/-- The window-reset step at the top of `Wait`: reset `windowStart` and the
window counter once a minute has elapsed. -/
def rlWindowReset (r : RateLimiterState) (now : Int) : RateLimiterState :=
  if now - r.windowStart ≥ minuteNs
  then { r with windowStart := now, requestCount := 0 } else r

/-- `Wait` from `client.go`: reset the rolling window when a minute has
elapsed; when the per-window quota is reached, block until the window
resets (cancellable); then enforce the minimum spacing since the previous
request (cancellable); on success record the request.  `ctx.Err()` is
modelled as `GoError.canceled`. -/
def rlWait (r : RateLimiterState) (cancelAt : Option Int) (now : Int) :
    Option GoError × RateLimiterState :=
  if (rlWindowReset r now).requestCount ≥
      (rlWindowReset r now).requestsPerMin then
    if ctxFires cancelAt
        (now + (minuteNs - (now - (rlWindowReset r now).windowStart))) then
      (some .canceled, rlWindowReset r now)
    else
      rlWaitInterval
        { rlWindowReset r now with
          windowStart :=
            now + (minuteNs - (now - (rlWindowReset r now).windowStart)),
          requestCount := 0 }
        cancelAt now
        (now + (minuteNs - (now - (rlWindowReset r now).windowStart)))
  else rlWaitInterval (rlWindowReset r now) cancelAt now now

/-- Whether a call to `Wait` at time `now` has to block: either the
(possibly just reset) window quota is exhausted, or less than `minInterval`
has elapsed since the previous request. -/
def rlNeedsBlocking (r : RateLimiterState) (now : Int) : Bool :=
  decide ((rlWindowReset r now).requestCount ≥
      (rlWindowReset r now).requestsPerMin) ||
    (match r.lastRequestTime with
     | some lrt => decide (now - lrt < r.minInterval)
     | none => false)

@[simp] lemma rlWindowReset_lastRequestTime (r : RateLimiterState)
    (now : Int) : (rlWindowReset r now).lastRequestTime =
      r.lastRequestTime := by
  unfold rlWindowReset
  split <;> rfl

@[simp] lemma rlWindowReset_minInterval (r : RateLimiterState) (now : Int) :
    (rlWindowReset r now).minInterval = r.minInterval := by
  unfold rlWindowReset
  split <;> rfl

lemma rlWindowReset_requestCount_le (r : RateLimiterState) (now : Int) :
    (rlWindowReset r now).requestCount ≤ r.requestCount := by
  unfold rlWindowReset
  split <;> simp

lemma rlWindowReset_window_lt (r : RateLimiterState) (now : Int) :
    now - (rlWindowReset r now).windowStart < minuteNs := by
  unfold rlWindowReset
  split
  · next h => simp only []; norm_num [minuteNs]
  · next h => omega

/-- If the interval step returns a cancellation error it leaves its state
argument untouched. -/
lemma rlWaitInterval_some (r : RateLimiterState) (cancelAt : Option Int)
    (now cur : Int) (h : (rlWaitInterval r cancelAt now cur).1.isSome) :
    (rlWaitInterval r cancelAt now cur).2 = r := by
  unfold rlWaitInterval at h ⊢
  cases hl : r.lastRequestTime with
  | none => simp [hl] at h
  | some lrt =>
      simp only [hl] at h ⊢
      by_cases hmi : now - lrt < r.minInterval
      · rw [if_pos hmi] at h ⊢
        by_cases hf : ctxFires cancelAt (cur + (r.minInterval - (now - lrt)))
            = true
        · rw [if_pos hf]
        · rw [if_neg hf] at h
          simp at h
      · rw [if_neg hmi] at h
        simp at h

/-- A fresh rate limiter as built by `NewOpenAIClient` (1s minimum
interval, 60 requests per minute, nothing recorded yet). -/
def rlFresh : RateLimiterState :=
  { lastRequestTime := none, minInterval := 1000000000,
    requestsPerMin := 60, requestCount := 0, windowStart := 0 }

/-- C7 counterexample: a context that is already cancelled when `Wait` is
invoked does NOT make `Wait` return a cancellation error when no blocking is
needed — on a fresh limiter `Wait` succeeds and increments
`requestCount` even though the context was cancelled 5ns before the call. -/
theorem rl_wait_cancelled_cex :
    (rlWait rlFresh (some (-5)) 0).1 = none ∧
      (rlWait rlFresh (some (-5)) 0).2.requestCount = 1 := by
  decide

/-- C7 (amended).  `Wait` only observes cancellation when it has to block:
if the context is already cancelled at entry and blocking is needed (window
quota exhausted or minimum interval not yet elapsed), `Wait` returns a
cancellation error; when no blocking is needed it succeeds and increments
the counters even under a cancelled context.  Whenever `Wait` returns a
cancellation error, `lastRequestTime` is unchanged and `requestCountInWindow`
is never incremented (it is either unchanged or reset to zero by the
rolling-window reset). -/
theorem rl_wait_cancellation (r : RateLimiterState) (cancelAt : Option Int)
    (now : Int) :
    ((rlWait r cancelAt now).1.isSome →
        (rlWait r cancelAt now).2.lastRequestTime = r.lastRequestTime ∧
          (rlWait r cancelAt now).2.requestCount ≤ r.requestCount) ∧
      (∀ tc, cancelAt = some tc → tc ≤ now →
        rlNeedsBlocking r now = true →
        (rlWait r cancelAt now).1 = some .canceled) := by
  constructor
  · intro hsome
    unfold rlWait at hsome ⊢
    by_cases hq : (rlWindowReset r now).requestCount ≥
        (rlWindowReset r now).requestsPerMin
    · rw [if_pos hq] at hsome ⊢
      by_cases hf : ctxFires cancelAt
          (now + (minuteNs - (now - (rlWindowReset r now).windowStart))) =
          true
      · rw [if_pos hf]
        exact ⟨rlWindowReset_lastRequestTime r now,
          rlWindowReset_requestCount_le r now⟩
      · rw [if_neg hf] at hsome ⊢
        rw [rlWaitInterval_some _ _ _ _ hsome]
        exact ⟨rlWindowReset_lastRequestTime r now, Nat.zero_le _⟩
    · rw [if_neg hq] at hsome ⊢
      rw [rlWaitInterval_some _ _ _ _ hsome]
      exact ⟨rlWindowReset_lastRequestTime r now,
        rlWindowReset_requestCount_le r now⟩
  · intro tc hc hle hneed
    subst hc
    unfold rlNeedsBlocking at hneed
    rw [Bool.or_eq_true] at hneed
    unfold rlWait
    by_cases hq : (rlWindowReset r now).requestCount ≥
        (rlWindowReset r now).requestsPerMin
    · rw [if_pos hq]
      have hw := rlWindowReset_window_lt r now
      have hf : ctxFires (some tc)
          (now + (minuteNs - (now - (rlWindowReset r now).windowStart))) =
          true := by
        simp only [ctxFires, decide_eq_true_eq]
        omega
      rw [if_pos hf]
    · rw [if_neg hq]
      have hint : ∃ lrt, r.lastRequestTime = some lrt ∧
          now - lrt < r.minInterval := by
        rcases hneed with h | h
        · exact absurd (of_decide_eq_true h) hq
        · cases hl : r.lastRequestTime with
          | none => rw [hl] at h; simp at h
          | some lrt =>
              rw [hl] at h
              exact ⟨lrt, rfl, of_decide_eq_true h⟩
      obtain ⟨lrt, hl, hmi⟩ := hint
      unfold rlWaitInterval
      rw [rlWindowReset_lastRequestTime, hl]
      simp only [rlWindowReset_minInterval]
      rw [if_pos hmi]
      have hf : ctxFires (some tc) (now + (r.minInterval - (now - lrt))) =
          true := by
        simp only [ctxFires, decide_eq_true_eq]
        omega
      rw [if_pos hf]

/-- A rate limiter that must block for the minimum interval: the previous
request was recorded at time 0 and only 5ns have elapsed. -/
def rlBlocked : RateLimiterState :=
  { lastRequestTime := some 0, minInterval := 1000000000,
    requestsPerMin := 60, requestCount := 1, windowStart := 0 }

/-- Witness for `rl_wait_cancellation`: on a limiter that must wait out the
minimum interval, a context cancelled at time 0 makes `Wait` at time 5
return the cancellation error, with `lastRequestTime` and `requestCount`
untouched. -/
theorem rl_wait_cancellation_witness :
    (rlWait rlBlocked (some 0) 5).1 = some .canceled ∧
      (rlWait rlBlocked (some 0) 5).2.lastRequestTime =
        rlBlocked.lastRequestTime ∧
      (rlWait rlBlocked (some 0) 5).2.requestCount ≤
        rlBlocked.requestCount := by
  have h := rl_wait_cancellation rlBlocked (some 0) 5
  have hcancel : (rlWait rlBlocked (some 0) 5).1 = some .canceled :=
    h.2 0 rfl (by decide) (by decide)
  have hcounters := h.1 (by rw [hcancel]; rfl)
  exact ⟨hcancel, hcounters.1, hcounters.2⟩

/-! ## Orchestrating client (`client.go` `Query`/`Chat`) -/

/-- The OpenAI section of the configuration, as far as `Query`/`Chat` read
it.  float32 fields are modelled over `ℚ`. -/
structure OpenAIConfig where
  model : String := ""
  temperature : ℚ := 0
  maxTokens : Int := 0
  topP : ℚ := 0
  n : Int := 0
  reasoningEffort : String := ""
deriving Repr, DecidableEq

/-- The configuration handed to the client (`cacheTTL` is
`config.Cache.TTL`, used for every cache write). -/
structure Config where
  openai : OpenAIConfig := {}
  cacheTTL : Int := 0
deriving Repr, DecidableEq

/-- A chat message (`Message` in `client.go`). -/
structure Message where
  role : String
  content : String
  name : String := ""
deriving Repr, DecidableEq

/-- Options for chat requests (`ChatOptions` in `client.go`). -/
structure ChatOptions where
  model : String := ""
  temperature : ℚ := 0
  maxTokens : Int := 0
  topP : ℚ := 0
  n : Int := 0
  stop : List String := []
  presencePenalty : ℚ := 0
  frequencyPenalty : ℚ := 0
  user : String := ""
  reasoningEffort : String := ""
deriving Repr, DecidableEq

/-- `GenerateKey` from `cache.go` returns the hex SHA-256 digest of the raw
prompt.  The digest is modelled injectively by tagging the preimage;
distinct preimages give distinct keys, which is the collision-freeness
assumption for SHA-256, and prompt digests are disjoint from chat digests
(distinct tags model that the two hash different byte strings). -/
def generateKey (prompt : String) : String := "prompt#" ++ prompt

/-- Deterministic rendering of a rational (stands in for JSON number
serialization). -/
def encodeRat (q : ℚ) : String := toString q.num ++ "/" ++ toString q.den

/-- Deterministic rendering of one message (stands in for its JSON object). -/
def encodeMessage (m : Message) : String :=
  m.role ++ ":" ++ m.content ++ ":" ++ m.name

/-- Deterministic rendering of a message list. -/
def encodeMessages (ms : List Message) : String :=
  String.intercalate "," (ms.map encodeMessage)

/-- Deterministic rendering of the options struct (stands in for its JSON
serialization; every output-affecting option is included, as in the Go
struct `json.Marshal`). -/
def encodeOptions (o : ChatOptions) : String :=
  String.intercalate "|"
    [o.model, encodeRat o.temperature, toString o.maxTokens,
     encodeRat o.topP, toString o.n, String.intercalate ";" o.stop,
     encodeRat o.presencePenalty, encodeRat o.frequencyPenalty, o.user,
     o.reasoningEffort]

/-- `GenerateChatKey` from `cache.go`: the hex SHA-256 digest of the JSON
serialization of the full message list plus the options, modelled
injectively by its (tagged) preimage. -/
def generateChatKey (ms : List Message) (o : ChatOptions) : String :=
  "chat#" ++ encodeMessages ms ++ "#" ++ encodeOptions o

/-- Prompt fingerprints and chat fingerprints are distinct (they are
digests of different byte strings). -/
lemma generateKey_ne_generateChatKey (p : String) (ms : List Message)
    (o : ChatOptions) : generateKey p ≠ generateChatKey ms o := by
  intro h
  have hd := congrArg (fun s => s.data.head?) h
  simp [generateKey, generateChatKey, String.data_append] at hd

/-- The `Response` struct `Chat` builds from the first choice of a
completion (`client.go` lines converting `resp` to `response`). -/
def responseOfCompletion (comp : ChatCompletion)
    (choice : ChatCompletionChoice) : Response :=
  { content := choice.messageContent, model := comp.model,
    usage := comp.usage, finishReason := choice.finishReason,
    created := comp.created, id := comp.id, object := comp.object }

/-- The defaults `Chat` applies before building the request: an empty model
and a zero `N` are replaced from the configuration. -/
def applyChatDefaults (cfg : Config) (o : ChatOptions) : ChatOptions :=
  if (if o.model = "" then { o with model := cfg.openai.model } else o).n = 0
  then
    { (if o.model = "" then { o with model := cfg.openai.model } else o) with
      n := cfg.openai.n }
  else if o.model = "" then { o with model := cfg.openai.model } else o

/-- The cache entry `Query`/`Chat` build around a fresh response. -/
def newCacheEntry (resp : Response) (now : Int) : CacheEntry :=
  { response := some resp, tokenUsage := resp.usage, createdAt := now,
    lastAccessedAt := now, accessCount := 1 }

/-- The options `Query` builds from the configuration (`N` is left zero). -/
def queryOptions (cfg : Config) : ChatOptions :=
  { model := cfg.openai.model, temperature := cfg.openai.temperature,
    maxTokens := cfg.openai.maxTokens, topP := cfg.openai.topP,
    reasoningEffort := cfg.openai.reasoningEffort }

/-- The single-message request `Query` builds. -/
def userMessage (prompt : String) : Message :=
  { role := "user", content := prompt }

/-- The orchestrating client (`OpenAIClient`): the closed flag, the
configuration, the retry configuration and the optional cache. -/
structure ClientState where
  closed : Bool := false
  config : Config := {}
  retryConfig : RetryConfig := defaultRetryConfig
  cache : Option CacheState := none
deriving Repr, DecidableEq

/-- The network-and-cache-store path of `Chat` (after a cache miss): wait on
the rate limiter (`rlErr` is its outcome; a failure is wrapped as
"rate limiting error"), apply option defaults, run the retry loop, fail on
an empty choice list, convert the response and store it in the cache under
the chat fingerprint of the *defaulted* options (a failed store is only
logged). -/
def chatMNetwork (cl : ClientState) (messages : List Message)
    (options : ChatOptions) (now : Int)
    (net : Nat → Except GoError ChatCompletion) (cb : Nat → Option GoError)
    (rlErr : Option GoError) : Except GoError (Option Response) × ClientState :=
  match rlErr with
  | some e => (.error (.wrapped "rate limiting error" e), cl)
  | none =>
      match chatRetry cl.retryConfig net cb with
      | (.err e, _) => (.error e, cl)
      | (.ctxDone e, _) => (.error e, cl)
      | (.ok comp, _) =>
          match comp.choices with
          | [] => (.error (.simple "no response choices returned"), cl)
          | choice :: _ =>
              match cl.cache with
              | some c =>
                  (.ok (some (responseOfCompletion comp choice)),
                    { cl with
                      cache := some (cacheSet c now
                        (generateChatKey messages
                          (applyChatDefaults cl.config options))
                        (some (newCacheEntry
                          (responseOfCompletion comp choice) now))
                        cl.config.cacheTTL).2 })
              | none => (.ok (some (responseOfCompletion comp choice)), cl)

/-- `Chat` from `client.go`: fail fast when closed; on a cache hit under the
chat fingerprint of the *caller's* options return the stored response;
otherwise run the network path. -/
def chatM (cl : ClientState) (messages : List Message)
    (options : ChatOptions) (now : Int)
    (net : Nat → Except GoError ChatCompletion) (cb : Nat → Option GoError)
    (rlErr : Option GoError) : Except GoError (Option Response) × ClientState :=
  if cl.closed then (.error (.simple "client is closed"), cl)
  else
    match cl.cache with
    | some c =>
        match cacheGet c now (generateChatKey messages options) with
        | (some entry, c') =>
            (.ok entry.response, { cl with cache := some c' })
        | (none, c') =>
            chatMNetwork { cl with cache := some c' } messages options now
              net cb rlErr
    | none => chatMNetwork cl messages options now net cb rlErr

/-- The miss path of `Query`: delegate to `Chat` with the single user
message and the config-derived options, then store a successful non-nil
response under the prompt fingerprint and return its content.  (When `Chat`
returns a nil response with no error — possible only via a cache hit on a
nil stored response — the Go code dereferences a nil pointer; that panic is
modelled as an error and is unreachable from the network path.) -/
def queryMNetwork (cl : ClientState) (prompt : String) (now : Int)
    (net : Nat → Except GoError ChatCompletion) (cb : Nat → Option GoError)
    (rlErr : Option GoError) : Except GoError String × ClientState :=
  match chatM cl [userMessage prompt] (queryOptions cl.config) now net cb
      rlErr with
  | (.error e, cl') => (.error e, cl')
  | (.ok r?, cl') =>
      match cl'.cache, r? with
      | some c, some resp =>
          (.ok resp.content,
            { cl' with
              cache := some (cacheSet c now (generateKey prompt)
                (some (newCacheEntry resp now)) cl'.config.cacheTTL).2 })
      | none, some resp => (.ok resp.content, cl')
      | _, none => (.error (.simple "panic: nil response"), cl')

/-- `Query` from `client.go`: fail fast when closed; on a cache hit under
the prompt fingerprint return the stored content; otherwise run the miss
path. -/
def queryM (cl : ClientState) (prompt : String) (now : Int)
    (net : Nat → Except GoError ChatCompletion) (cb : Nat → Option GoError)
    (rlErr : Option GoError) : Except GoError String × ClientState :=
  if cl.closed then (.error (.simple "client is closed"), cl)
  else
    match cl.cache with
    | some c =>
        match cacheGet c now (generateKey prompt) with
        | (some entry, c') =>
            match entry.response with
            | some r => (.ok r.content, { cl with cache := some c' })
            | none =>
                (.error (.simple "panic: nil response"),
                  { cl with cache := some c' })
        | (none, c') =>
            queryMNetwork { cl with cache := some c' } prompt now net cb
              rlErr
    | none => queryMNetwork cl prompt now net cb rlErr

lemma removeLocked_absent (c : CacheState) (key : String)
    (h : ∀ n ∈ c.lruList, n.key ≠ key) : removeLocked c key = (c, false) := by
  have hf : c.lruList.find? (fun m => m.key == key) = none :=
    List.find?_eq_none.mpr (fun n hn => by simp [h n hn])
  unfold removeLocked
  rw [hf]

lemma cacheGet_absent (c : CacheState) (now : Int) (key : String)
    (h : ∀ n ∈ c.lruList, n.key ≠ key) :
    cacheGet c now key =
      (none, { c with statsMisses := c.statsMisses + 1 }) := by
  have hf : c.lruList.find? (fun m => m.key == key) = none :=
    List.find?_eq_none.mpr (fun n hn => by simp [h n hn])
  unfold cacheGet
  rw [hf]

lemma evictFuel_noop (fuel : Nat) (c : CacheState) (need : Int)
    (h : ¬ c.currentSize + need > c.maxSizeBytes) :
    evictFuel fuel c need = c := by
  cases fuel with
  | zero => rfl
  | succ fuel =>
      unfold evictFuel
      rw [if_neg]
      intro hc
      exact h hc.1

/-- A successful `Set` of an absent key that fits without eviction is a
plain push onto the front of the recency list. -/
lemma cacheSet_push (c : CacheState) (now : Int) (key : String)
    (e : CacheEntry) (ttl : Int)
    (habsent : ∀ n ∈ c.lruList, n.key ≠ key)
    (hfit : c.currentSize + calculateEntrySize e ≤ c.maxSizeBytes)
    (h0 : 0 ≤ c.currentSize) :
    cacheSet c now key (some e) ttl =
      (none,
        { c with
          lruList :=
            ⟨key,
              { e with sizeBytes := calculateEntrySize e,
                       expiresAt := now + (if ttl = 0 then c.ttl else ttl),
                       promptHash := key },
              calculateEntrySize e⟩ :: c.lruList,
          currentSize := c.currentSize + calculateEntrySize e,
          statsEntries := c.lruList.length + 1,
          statsSizeBytes := c.currentSize + calculateEntrySize e }) := by
  have hsizele : ¬ calculateEntrySize e > c.maxSizeBytes := by
    have := calculateEntrySize_nonneg e
    omega
  have hrem : removeLocked c key = (c, false) := removeLocked_absent c key habsent
  have hevict : evictFuel c.lruList.length c (calculateEntrySize e) = c :=
    evictFuel_noop _ _ _ (by omega)
  simp only [cacheSet, hsizele, if_false, hrem, hevict, List.length_cons]

/-- The node that a non-evicting `Set` of a fresh response inserts. -/
def insertedNode (resp : Response) (now : Int) (key : String)
    (ttlEff : Int) : LruNode :=
  ⟨key,
    { newCacheEntry resp now with
      sizeBytes := calculateEntrySize (newCacheEntry resp now),
      expiresAt := now + ttlEff, promptHash := key },
    calculateEntrySize (newCacheEntry resp now)⟩

/-- C9 (amended).  With caching enabled, a `Query(prompt)` that misses the
cache and succeeds inserts the same response twice — once under the chat
fingerprint of the messages and the *defaulted* options inside `Chat`, and
once under the prompt fingerprint in `Query` — and the two fingerprints are
distinct, so (when both inserts fit without evicting) the call leaves
exactly two new live entries at the front of the recency list and every
pre-existing entry untouched.  (When capacity forces eviction,
least-recently-used entries under other keys are removed as well — see the
counterexample.) -/
theorem query_double_insert (cl : ClientState) (c : CacheState)
    (prompt : String) (now : Int)
    (net : Nat → Except GoError ChatCompletion) (cb : Nat → Option GoError)
    (comp : ChatCompletion) (choice : ChatCompletionChoice)
    (rest : List ChatCompletionChoice)
    (hclosed : cl.closed = false) (hcache : cl.cache = some c)
    (hmiss1 : ∀ n ∈ c.lruList, n.key ≠ generateKey prompt)
    (hmiss2 : ∀ n ∈ c.lruList,
      n.key ≠ generateChatKey [userMessage prompt] (queryOptions cl.config))
    (hmiss3 : ∀ n ∈ c.lruList,
      n.key ≠ generateChatKey [userMessage prompt]
        (applyChatDefaults cl.config (queryOptions cl.config)))
    (hretry : (chatRetry cl.retryConfig net cb).1 = .ok comp)
    (hchoices : comp.choices = choice :: rest)
    (hsz : sizeInv c) (hnn : sizesNonneg c)
    (hfit : c.currentSize +
        2 * calculateEntrySize
          (newCacheEntry (responseOfCompletion comp choice) now) ≤
      c.maxSizeBytes) :
    (queryM cl prompt now net cb none).1 =
        .ok (responseOfCompletion comp choice).content ∧
      ((queryM cl prompt now net cb none).2.cache.map (·.lruList)) =
        some
          (insertedNode (responseOfCompletion comp choice) now
              (generateKey prompt)
              (if cl.config.cacheTTL = 0 then c.ttl
                else cl.config.cacheTTL) ::
            insertedNode (responseOfCompletion comp choice) now
              (generateChatKey [userMessage prompt]
                (applyChatDefaults cl.config (queryOptions cl.config)))
              (if cl.config.cacheTTL = 0 then c.ttl
                else cl.config.cacheTTL) ::
            c.lruList) ∧
      generateKey prompt ≠
        generateChatKey [userMessage prompt]
          (applyChatDefaults cl.config (queryOptions cl.config)) ∧
      (insertedNode (responseOfCompletion comp choice) now
          (generateKey prompt)
          (if cl.config.cacheTTL = 0 then c.ttl
            else cl.config.cacheTTL)).entry.response =
        some (responseOfCompletion comp choice) ∧
      (insertedNode (responseOfCompletion comp choice) now
          (generateChatKey [userMessage prompt]
            (applyChatDefaults cl.config (queryOptions cl.config)))
          (if cl.config.cacheTTL = 0 then c.ttl
            else cl.config.cacheTTL)).entry.response =
        some (responseOfCompletion comp choice) := by
  obtain ⟨closedFlag, cfg, rc, cache?⟩ := cl
  simp only at hclosed hcache hretry hmiss2 hmiss3 ⊢
  subst hclosed
  subst hcache
  have h0 : 0 ≤ c.currentSize := by
    rw [sizeInv] at hsz
    rw [hsz]
    apply List.sum_nonneg
    intro x hx
    simp only [List.mem_map] at hx
    obtain ⟨n, hn, rfl⟩ := hx
    exact hnn n hn
  have hszn : 0 ≤ calculateEntrySize
      (newCacheEntry (responseOfCompletion comp choice) now) :=
    calculateEntrySize_nonneg _
  have hget1 : cacheGet c now (generateKey prompt) =
      (none, { c with statsMisses := c.statsMisses + 1 }) :=
    cacheGet_absent c now _ hmiss1
  have hget2 : cacheGet { c with statsMisses := c.statsMisses + 1 } now
      (generateChatKey [userMessage prompt] (queryOptions cfg)) =
      (none, { c with statsMisses := c.statsMisses + 1 + 1 }) :=
    cacheGet_absent _ now _ hmiss2
  cases hp : chatRetry rc net cb with
  | mk outcome calls =>
      rw [hp] at hretry
      simp only at hretry
      subst hretry
      have hset1 :
          (cacheSet { c with statsMisses := c.statsMisses + 1 + 1 } now
            (generateChatKey [userMessage prompt]
              (applyChatDefaults cfg (queryOptions cfg)))
            (some (newCacheEntry (responseOfCompletion comp choice) now))
            cfg.cacheTTL).2 =
          { c with
            lruList :=
              insertedNode (responseOfCompletion comp choice) now
                (generateChatKey [userMessage prompt]
                  (applyChatDefaults cfg (queryOptions cfg)))
                (if cfg.cacheTTL = 0 then c.ttl else cfg.cacheTTL) ::
                c.lruList,
            currentSize := c.currentSize +
              calculateEntrySize
                (newCacheEntry (responseOfCompletion comp choice) now),
            statsMisses := c.statsMisses + 1 + 1,
            statsEntries := c.lruList.length + 1,
            statsSizeBytes := c.currentSize +
              calculateEntrySize
                (newCacheEntry (responseOfCompletion comp choice) now) } := by
        rw [cacheSet_push { c with statsMisses := c.statsMisses + 1 + 1 }
          now _ _ _ hmiss3 (by dsimp only; omega) (by dsimp only; omega)]
        rfl
      have habsent2 : ∀ n ∈
          (insertedNode (responseOfCompletion comp choice) now
              (generateChatKey [userMessage prompt]
                (applyChatDefaults cfg (queryOptions cfg)))
              (if cfg.cacheTTL = 0 then c.ttl else cfg.cacheTTL) ::
            c.lruList), n.key ≠ generateKey prompt := by
        intro n hn
        rcases List.mem_cons.mp hn with rfl | hn
        · exact fun hk =>
            generateKey_ne_generateChatKey prompt [userMessage prompt]
              (applyChatDefaults cfg (queryOptions cfg)) hk.symm
        · exact hmiss1 n hn
      have hset2 :
          (cacheSet
            { c with
              lruList :=
                insertedNode (responseOfCompletion comp choice) now
                  (generateChatKey [userMessage prompt]
                    (applyChatDefaults cfg (queryOptions cfg)))
                  (if cfg.cacheTTL = 0 then c.ttl else cfg.cacheTTL) ::
                  c.lruList,
              currentSize := c.currentSize +
                calculateEntrySize
                  (newCacheEntry (responseOfCompletion comp choice) now),
              statsMisses := c.statsMisses + 1 + 1,
              statsEntries := c.lruList.length + 1,
              statsSizeBytes := c.currentSize +
                calculateEntrySize
                  (newCacheEntry (responseOfCompletion comp choice) now) }
            now (generateKey prompt)
            (some (newCacheEntry (responseOfCompletion comp choice) now))
            cfg.cacheTTL).2 =
          { c with
            lruList :=
              insertedNode (responseOfCompletion comp choice) now
                (generateKey prompt)
                (if cfg.cacheTTL = 0 then c.ttl else cfg.cacheTTL) ::
                insertedNode (responseOfCompletion comp choice) now
                  (generateChatKey [userMessage prompt]
                    (applyChatDefaults cfg (queryOptions cfg)))
                  (if cfg.cacheTTL = 0 then c.ttl else cfg.cacheTTL) ::
                c.lruList,
            currentSize := c.currentSize +
              calculateEntrySize
                (newCacheEntry (responseOfCompletion comp choice) now) +
              calculateEntrySize
                (newCacheEntry (responseOfCompletion comp choice) now),
            statsMisses := c.statsMisses + 1 + 1,
            statsEntries := c.lruList.length + 1 + 1,
            statsSizeBytes := c.currentSize +
              calculateEntrySize
                (newCacheEntry (responseOfCompletion comp choice) now) +
              calculateEntrySize
                (newCacheEntry (responseOfCompletion comp choice) now) } := by
        rw [cacheSet_push
          { c with
            lruList :=
              insertedNode (responseOfCompletion comp choice) now
                (generateChatKey [userMessage prompt]
                  (applyChatDefaults cfg (queryOptions cfg)))
                (if cfg.cacheTTL = 0 then c.ttl else cfg.cacheTTL) ::
                c.lruList,
            currentSize := c.currentSize +
              calculateEntrySize
                (newCacheEntry (responseOfCompletion comp choice) now),
            statsMisses := c.statsMisses + 1 + 1,
            statsEntries := c.lruList.length + 1,
            statsSizeBytes := c.currentSize +
              calculateEntrySize
                (newCacheEntry (responseOfCompletion comp choice) now) }
          now _ _ _ habsent2 (by dsimp only; omega) (by dsimp only; omega)]
        rfl
      refine ⟨?_, ?_, generateKey_ne_generateChatKey _ _ _, rfl, rfl⟩
      · simp only [queryM, Bool.false_eq_true, if_false, hget1,
          queryMNetwork, chatM, hget2, chatMNetwork, hp, hchoices, hset1,
          hset2]
      · simp only [queryM, Bool.false_eq_true, if_false, hget1,
          queryMNetwork, chatM, hget2, chatMNetwork, hp, hchoices, hset1,
          hset2, Option.map_some']

/-- The configuration used by the concrete `Query` runs below. -/
def c9Config : Config := { openai := { model := "m" }, cacheTTL := 100 }

/-- A cache holding one pre-existing 200-byte entry under key "victim",
with 700 bytes of capacity. -/
def c9VictimCache : CacheState :=
  { lruList := [⟨"victim", {}, 200⟩], currentSize := 200,
    maxSizeBytes := 700, ttl := 50 }

/-- A client over `c9VictimCache`. -/
def c9Client : ClientState := { config := c9Config, cache := some c9VictimCache }

/-- The first (and only) choice the network returns below. -/
def c9Choice : ChatCompletionChoice := { messageContent := "a" }

/-- The completion the network returns below. -/
def c9Comp : ChatCompletion := { model := "m", choices := [c9Choice] }

/-- A network that succeeds on the first attempt. -/
def c9Net : Nat → Except GoError ChatCompletion := fun _ => .ok c9Comp

/-- C9 counterexample: an uncached `Query` does NOT leave all other cache
keys unmodified.  Each response entry is 302 bytes; caching the chat entry
(200+302 = 502 ≤ 700) fits, but caching the prompt entry (502+302 > 700)
evicts the least-recently-used pre-existing entry "victim", so after the
call the key "victim" is gone from the cache. -/
theorem query_eviction_frame_cex :
    ("victim" ∈ c9VictimCache.lruList.map (·.key)) ∧
      ((queryM c9Client "q" 0 c9Net (fun _ => none) none).2.cache.map
        (fun cc => (cc.lruList.map (·.key)).contains "victim")) =
        some false := by
  decide

/-- An empty cache with 1000 bytes of capacity. -/
def c9EmptyCache : CacheState := { maxSizeBytes := 1000, ttl := 50 }

/-- A client over the empty cache. -/
def c9Client2 : ClientState := { config := c9Config, cache := some c9EmptyCache }

/-- Witness for `query_double_insert`: a concrete uncached `Query` on an
empty cache returns the network response's content and uses two distinct
fingerprints. -/
theorem query_double_insert_witness :
    (queryM c9Client2 "q" 0 c9Net (fun _ => none) none).1 =
        .ok (responseOfCompletion c9Comp c9Choice).content ∧
      generateKey "q" ≠
        generateChatKey [userMessage "q"]
          (applyChatDefaults c9Client2.config (queryOptions c9Client2.config)) := by
  have h := query_double_insert c9Client2 c9EmptyCache "q" 0 c9Net
    (fun _ => none) c9Comp c9Choice [] rfl rfl (by decide) (by decide)
    (by decide) (by decide) rfl (by decide) (by decide) (by decide)
  exact ⟨h.1, h.2.2.1⟩

end TerminalAI
